import Mathlib

/-!
Shallow embedding of `src/diff_tracker.py` (the change-diff /
reconciliation engine of the movie-match repository) and proofs about it.

Modelling conventions:
* JSON-decoded Python values are the inductive `Value` below
  (null / bool / int / str / list / dict).  JSON numbers are modelled as
  integers; no claim involves non-integer numbers.  `!=` on record
  field values (`compare_field`) is structural inequality on `Value`,
  matching `==` on JSON-decoded records (the spec calls the comparison
  "deep/structural inequality"; `compare_field` compares whole records
  and field values, where bool/int unification cannot distinguish two
  decoded values of equal structure).  Python `==` as used on dict KEYS
  and set elements is the separate relation `pyEq` below, which does
  identify `True` with `1` and `False` with `0` — the claims about
  indexing and the id-set algebra go through `pyEq`.
* Python dicts are association lists with Python's insertion semantics:
  assigning to a key that is `==` to an existing key overwrites the
  value in place and keeps the first-inserted key object, a new key is
  appended.  JSON-decoded dicts have distinct string keys.  The id sets
  and their difference keep the left operand's objects; Python's `&`
  picks representatives by hash-set iteration order, so the model's
  before-side choice is accompanied, in every theorem whose meaning
  depends on the choice, by a hypothesis (`NoCoercedIds`, `WellKeyed`)
  under which all `==`-equal representatives coincide.
* Python exceptions are `Except PyErr`; `build_index` can raise
  (`in` on a non-container, subscripting, unhashable keys), and
  `run_server` catches everything and answers with an
  "Internal error: ..." response, exactly as the source does.
* `sorted(..., key=lambda x: str(x))` is a stable sort by the string
  cast of the element.  It is modelled by `List.insertionSort` (also
  stable) over the kernel-computable lexicographic order `pyLe`
  defined below; stable sorts by the same key agree on every list.
* `str.strip()` is modelled over the ASCII whitespace characters.
-/

namespace DiffTracker

/-- A JSON-representable Python value (the element type of snapshots,
records, identity values and responses). -/
inductive Value : Type where
  | null : Value
  | bool : Bool → Value
  | num : Int → Value
  | str : String → Value
  | arr : List Value → Value
  | obj : List (String × Value) → Value

mutual

/-- Structural equality on values (Python `==` on JSON-decoded data). -/
def Value.beq : Value → Value → Bool
  | .null, .null => true
  | .bool a, .bool b => a == b
  | .num a, .num b => a == b
  | .str a, .str b => a == b
  | .arr xs, .arr ys => beqValueList xs ys
  | .obj xs, .obj ys => beqFieldList xs ys
  | _, _ => false

/-- Elementwise structural equality of value lists. -/
def beqValueList : List Value → List Value → Bool
  | [], [] => true
  | x :: xs, y :: ys => Value.beq x y && beqValueList xs ys
  | _, _ => false

/-- Elementwise structural equality of field lists. -/
def beqFieldList : List (String × Value) → List (String × Value) → Bool
  | [], [] => true
  | p :: xs, q :: ys => p.1 == q.1 && Value.beq p.2 q.2 && beqFieldList xs ys
  | _, _ => false

end

mutual

theorem Value.eq_of_beq : ∀ {a b : Value}, Value.beq a b = true → a = b
  | .null, .null, _ => rfl
  | .bool a, .bool b, h => by
      simp only [Value.beq, beq_iff_eq] at h; rw [h]
  | .num a, .num b, h => by
      simp only [Value.beq, beq_iff_eq] at h; rw [h]
  | .str a, .str b, h => by
      simp only [Value.beq, beq_iff_eq] at h; rw [h]
  | .arr xs, .arr ys, h => by
      rw [eqValueList_of_beq (a := xs) (b := ys) h]
  | .obj xs, .obj ys, h => by
      rw [eqFieldList_of_beq (a := xs) (b := ys) h]

theorem eqValueList_of_beq : ∀ {a b : List Value}, beqValueList a b = true → a = b
  | [], [], _ => rfl
  | x :: xs, y :: ys, h => by
      simp only [beqValueList, Bool.and_eq_true] at h
      rw [Value.eq_of_beq h.1, eqValueList_of_beq h.2]

theorem eqFieldList_of_beq :
    ∀ {a b : List (String × Value)}, beqFieldList a b = true → a = b
  | [], [], _ => rfl
  | (k, v) :: xs, (k2, v2) :: ys, h => by
      simp only [beqFieldList, Bool.and_eq_true, beq_iff_eq] at h
      rw [h.1.1, Value.eq_of_beq h.1.2, eqFieldList_of_beq h.2]

end

mutual

theorem Value.beq_refl : ∀ (a : Value), Value.beq a a = true
  | .null => rfl
  | .bool a => by simp [Value.beq]
  | .num a => by simp [Value.beq]
  | .str a => by simp [Value.beq]
  | .arr xs => by simp only [Value.beq]; exact beqValueList_refl xs
  | .obj xs => by simp only [Value.beq]; exact beqFieldList_refl xs

theorem beqValueList_refl : ∀ (a : List Value), beqValueList a a = true
  | [] => rfl
  | x :: xs => by
      simp only [beqValueList, Bool.and_eq_true]
      exact ⟨Value.beq_refl x, beqValueList_refl xs⟩

theorem beqFieldList_refl : ∀ (a : List (String × Value)), beqFieldList a a = true
  | [] => rfl
  | p :: xs => by
      simp only [beqFieldList, Bool.and_eq_true, beq_self_eq_true]
      exact ⟨⟨trivial, Value.beq_refl p.2⟩, beqFieldList_refl xs⟩

end

instance : DecidableEq Value := fun a b =>
  decidable_of_iff (Value.beq a b = true)
    ⟨Value.eq_of_beq, fun h => h ▸ Value.beq_refl a⟩

instance : BEq Value := instBEqOfDecidableEq

instance : LawfulBEq Value := inferInstance

theorem Value.beq_iff {a b : Value} : Value.beq a b = true ↔ a = b :=
  ⟨Value.eq_of_beq, fun h => h ▸ Value.beq_refl a⟩

/-! ### Python `==` on dict keys and set elements

CPython identifies booleans with the integers 0 and 1: `True == 1`,
`hash(True) == hash(1)`, so `1` and `True` are one dict key / one set
element, and an overwrite keeps the first-inserted key object.  The
engine relies on this equivalence in `build_index` (`index[...] = item`),
in the key sets, and in their set algebra.  `pyEq` models it. -/

/-- The `int` a value stands for in Python's numeric tower, if any:
booleans are the integers 0 and 1. -/
def scalarInt : Value → Option Int
  | .bool b => some (if b then 1 else 0)
  | .num n => some n
  | _ => none

/-- Python `==` as used on dict keys and set elements.  `None` and
strings compare structurally; booleans and ints compare as the
integers they stand for, so `1 == True` and `0 == False`.  Lists and
dicts are unhashable — `build_index` raises before one could become a
key — and the only other use compares a string against snapshot
elements, which no container equals, so the container branches (here a
structural fallback) are unreachable in every use below. -/
def pyEq : Value → Value → Bool
  | .null, .null => true
  | .str a, .str b => a == b
  | .arr xs, .arr ys => Value.beq (.arr xs) (.arr ys)
  | .obj xs, .obj ys => Value.beq (.obj xs) (.obj ys)
  | a, b =>
      match scalarInt a, scalarInt b with
      | some x, some y => x == y
      | _, _ => false

theorem pyEq_iff {a b : Value} :
    pyEq a b = true ↔
      ((∃ x, scalarInt a = some x ∧ scalarInt b = some x) ∨
        (scalarInt a = none ∧ scalarInt b = none ∧ a = b)) := by
  cases a <;> cases b <;> simp [pyEq, scalarInt, Value.beq_iff] <;> exact eq_comm

theorem pyEq_refl (a : Value) : pyEq a a = true := by
  rw [pyEq_iff]
  cases h : scalarInt a with
  | none => exact Or.inr ⟨rfl, rfl, rfl⟩
  | some x => exact Or.inl ⟨x, rfl, rfl⟩

theorem pyEq_symm {a b : Value} (h : pyEq a b = true) : pyEq b a = true := by
  rw [pyEq_iff] at h ⊢
  rcases h with ⟨x, h1, h2⟩ | ⟨h1, h2, rfl⟩
  · exact Or.inl ⟨x, h2, h1⟩
  · exact Or.inr ⟨h1, h1, rfl⟩

theorem pyEq_trans {a b c : Value} (h1 : pyEq a b = true) (h2 : pyEq b c = true) :
    pyEq a c = true := by
  rw [pyEq_iff] at h1 h2 ⊢
  rcases h1 with ⟨x, ha, hb⟩ | ⟨ha, hb, rfl⟩
  · rcases h2 with ⟨y, hb2, hc⟩ | ⟨hb2, hc, rfl⟩
    · rw [hb] at hb2
      injection hb2 with hxy
      exact Or.inl ⟨x, ha, hxy ▸ hc⟩
    · rw [hb] at hb2
      cases hb2
  · rcases h2 with ⟨y, hb2, hc⟩ | ⟨hb2, hc, rfl⟩
    · rw [hb] at hb2
      cases hb2
    · exact Or.inr ⟨ha, hc, rfl⟩

theorem pyEq_of_eq {a b : Value} (h : a = b) : pyEq a b = true :=
  h ▸ pyEq_refl a

theorem pyEq_symm_false {a b : Value} (h : pyEq a b = false) : pyEq b a = false := by
  cases hba : pyEq b a
  · rfl
  · rw [pyEq_symm hba] at h
    cases h

/-! ### The string cast `str(x)` and its lexicographic order

`compute_diffs` sorts identity values with `key=lambda x: str(x)`.
Identity values that actually reach the sort are dict keys, hence
hashable (`None`, booleans, ints, strings); the unreachable list/dict
branches of `pyStr` carry placeholder text.  String comparison in
Python is lexicographic by code point. -/

/-- Decimal digits of a natural number (fuel-driven so the kernel can
evaluate it; fuel `n` suffices since `n / 10 < n` for `n > 0`). -/
def natDigitsAux : Nat → Nat → List Char
  | 0, _ => []
  | _ + 1, 0 => []
  | fuel + 1, n =>
      natDigitsAux fuel (n / 10) ++ [Char.ofNat (48 + n % 10)]

/-- Decimal representation of a natural number, as Python prints it. -/
def natDigits (n : Nat) : String :=
  if n = 0 then "0" else ⟨natDigitsAux n n⟩

/-- Python's `str(x)` for the values that can be dict keys.
Lists and dicts are unhashable and never reach the sort; their branches
are placeholders. -/
def pyStr : Value → String
  | .null => "None"
  | .bool true => "True"
  | .bool false => "False"
  | .num n => if n < 0 then "-" ++ natDigits n.natAbs else natDigits n.natAbs
  | .str s => s
  | .arr _ => "[...]"
  | .obj _ => "\x7b...\x7d"

/-- Lexicographic `≤` on char lists (Python string comparison, by code
point), in a form the kernel evaluates. -/
def charListLe : List Char → List Char → Bool
  | [], _ => true
  | _ :: _, [] => false
  | a :: as, b :: bs =>
      if a < b then true else if b < a then false else charListLe as bs

/-- `str(x) <= str(y)`: the comparison under which the engine's
`sorted(..., key=lambda x: str(x))` orders identity values. -/
def pyLe (a b : Value) : Bool := charListLe (pyStr a).data (pyStr b).data

/-- `str(x) < str(y)` (strict form of `pyLe`). -/
def pyLt (a b : Value) : Bool := !(pyLe b a)

theorem charListLe_total : ∀ (a b : List Char), charListLe a b ∨ charListLe b a
  | [], _ => Or.inl rfl
  | _ :: _, [] => Or.inr rfl
  | a :: as, b :: bs => by
      simp only [charListLe]
      rcases lt_trichotomy a b with h | h | h
      · simp [h]
      · subst h
        simp only [lt_irrefl, if_false]
        exact charListLe_total as bs
      · simp [h, not_lt_of_lt h]

theorem charListLe_trans :
    ∀ {a b c : List Char}, charListLe a b → charListLe b c → charListLe a c
  | [], _, _, _, _ => rfl
  | a :: as, b :: bs, [], hab, hbc => by simp [charListLe] at hbc
  | a :: as, [], c :: cs, hab, hbc => by simp [charListLe] at hab
  | a :: as, b :: bs, c :: cs, hab, hbc => by
      simp only [charListLe] at hab hbc ⊢
      rcases lt_trichotomy a b with h1 | h1 | h1
      · rcases lt_trichotomy b c with h2 | h2 | h2
        · simp [lt_trans h1 h2]
        · subst h2; simp [h1]
        · simp [h2, not_lt_of_lt h2] at hbc
      · subst h1
        rcases lt_trichotomy a c with h2 | h2 | h2
        · simp [h2]
        · subst h2
          simp only [lt_irrefl, if_false] at hab hbc ⊢
          exact charListLe_trans hab hbc
        · simp [h2, not_lt_of_lt h2] at hbc
      · simp [h1, not_lt_of_lt h1] at hab

theorem charListLe_antisymm :
    ∀ {a b : List Char}, charListLe a b → charListLe b a → a = b
  | [], [], _, _ => rfl
  | [], _ :: _, _, hba => by simp [charListLe] at hba
  | _ :: _, [], hab, _ => by simp [charListLe] at hab
  | a :: as, b :: bs, hab, hba => by
      simp only [charListLe] at hab hba
      rcases lt_trichotomy a b with h | h | h
      · simp [h, not_lt_of_lt h] at hba
      · subst h
        simp only [lt_irrefl, if_false] at hab hba
        rw [charListLe_antisymm hab hba]
      · simp [h, not_lt_of_lt h] at hab

theorem pyLe_total (a b : Value) : pyLe a b ∨ pyLe b a :=
  charListLe_total _ _

theorem pyLe_trans {a b c : Value} (h1 : pyLe a b) (h2 : pyLe b c) : pyLe a c :=
  charListLe_trans h1 h2

/-- `pyLe` is antisymmetric up to equality of the string casts. -/
theorem pyStr_eq_of_pyLe_antisymm {a b : Value} (h1 : pyLe a b) (h2 : pyLe b a) :
    pyStr a = pyStr b :=
  String.ext (charListLe_antisymm h1 h2)

/-! ### Python dict semantics

A dict is an association list; `d[k] = v` overwrites in place when the
key exists and appends otherwise (Python insertion-order semantics).
`Dict` is keyed by `Value` (the engine's indexes), `Record` is keyed by
`String` (JSON objects). -/

/-- A Python dict keyed by values: the index built by `build_index`. -/
abbrev Dict := List (Value × Value)

/-- A Python dict keyed by strings: a JSON object / record. -/
abbrev Record := List (String × Value)

/-- `d[k] = v` on a value-keyed dict.  Keys match under Python `==`
(`pyEq`), and an overwrite keeps the first-inserted key object (CPython
leaves the stored key untouched): `d[1] = a; d[True] = b` leaves the
single entry `(1, b)`. -/
def dictInsert (m : Dict) (k v : Value) : Dict :=
  if m.any (fun p => pyEq p.1 k) then
    m.map (fun p => if pyEq p.1 k then (p.1, v) else p)
  else m ++ [(k, v)]

/-- `list(d.keys())` on a value-keyed dict. -/
def dictKeys (m : Dict) : List Value := m.map (fun p => p.1)

/-- `d[k]` on a value-keyed dict whose key is known to be present under
Python `==` (the engine subscripts its indexes only with their own
keys); absent keys give a placeholder `null`. -/
def dictLookup (m : Dict) (k : Value) : Value :=
  match m.find? (fun p => pyEq p.1 k) with
  | some p => p.2
  | none => .null

/-- Membership of a value in a list of keys under Python `==`: the
element test of the id sets and their set algebra. -/
def keyMem (k : Value) (l : List Value) : Bool :=
  l.any (fun x => pyEq x k)

/-- `d[k] = v` on a string-keyed dict (used to build `changed_fields`
and, via repeated insertion, Python dict literals). -/
def recInsert (m : Record) (k : String) (v : Value) : Record :=
  if m.any (fun p => p.1 == k) then
    m.map (fun p => if p.1 == k then (p.1, v) else p)
  else m ++ [(k, v)]

/-- `d.get(k)` / `d.get(k, default)` on a record. -/
def recGetD (fs : Record) (k : String) (d : Value) : Value :=
  match fs.find? (fun p => p.1 == k) with
  | some p => p.2
  | none => d

/-! ### Python runtime behaviour needed by `build_index`

`build_index` evaluates `id_field in item`, `item[id_field]` and
`index[...] = item` on arbitrary decoded values, so the embedding keeps
the exceptions those raise.  The exact CPython message texts are
version-dependent; only the `unhashable type` message for list keys is
relied on by a theorem below. -/

/-- A raised Python exception, carrying `str(e)`. -/
inductive PyErr : Type where
  | typeError (msg : String)
  | keyError (msg : String)
deriving DecidableEq

/-- `str(e)` of a raised exception. -/
def PyErr.message : PyErr → String
  | .typeError m => m
  | .keyError m => m

instance {ε α : Type} [DecidableEq ε] [DecidableEq α] : DecidableEq (Except ε α) :=
  fun x y =>
    match x, y with
    | .ok a, .ok b =>
        if h : a = b then isTrue (by rw [h])
        else isFalse (by intro hh; cases hh; exact h rfl)
    | .error a, .error b =>
        if h : a = b then isTrue (by rw [h])
        else isFalse (by intro hh; cases hh; exact h rfl)
    | .ok _, .error _ => isFalse (by intro h; cases h)
    | .error _, .ok _ => isFalse (by intro h; cases h)

/-- The Python type name of a value (used in error messages). -/
def pyTypeName : Value → String
  | .null => "NoneType"
  | .bool _ => "bool"
  | .num _ => "int"
  | .str _ => "str"
  | .arr _ => "list"
  | .obj _ => "dict"

/-- `field in item` for a decoded value: key membership on dicts,
element membership on lists, substring test on strings, `TypeError`
otherwise. -/
def pyContains (item : Value) (field : String) : Except PyErr Bool :=
  match item with
  | .obj fs => .ok (fs.any (fun p => p.1 == field))
  | .arr xs => .ok (xs.any (fun x => pyEq x (Value.str field)))
  | .str s => .ok (field.isEmpty || (s.splitOn field).length ≥ 2)
  | v => .error (.typeError ("argument of type \x27" ++ pyTypeName v ++ "\x27 is not iterable"))

/-- `item[field]` for a decoded value: dict subscript on dicts
(`KeyError` when absent), `TypeError` otherwise. -/
def pySubscript (item : Value) (field : String) : Except PyErr Value :=
  match item with
  | .obj fs =>
      match fs.find? (fun p => p.1 == field) with
      | some p => .ok p.2
      | none => .error (.keyError ("\x27" ++ field ++ "\x27"))
  | v => .error (.typeError ("\x27" ++ pyTypeName v ++ "\x27 object is not subscriptable"))

/-- Whether a value can be a dict key (lists and dicts are unhashable). -/
def isHashable : Value → Bool
  | .arr _ => false
  | .obj _ => false
  | _ => true

/-! ### `build_index` (src/diff_tracker.py lines 11-20) -/

/-- The loop of `build_index`, with the accumulated index explicit:
`for item in items: if id_field in item: index[item[id_field]] = item`. -/
def build_index_from (index : Dict) (items : List Value) (id_field : String) :
    Except PyErr Dict :=
  match items with
  | [] => .ok index
  | item :: rest =>
      match pyContains item id_field with
      | .error e => .error e
      | .ok false => build_index_from index rest id_field
      | .ok true =>
          match pySubscript item id_field with
          | .error e => .error e
          | .ok k =>
              if isHashable k then
                build_index_from (dictInsert index k item) rest id_field
              else
                .error (.typeError ("unhashable type: \x27" ++ pyTypeName k ++ "\x27"))

/-- `build_index(items, id_field)`: mapping id value → item dict,
ignoring items missing the id field. -/
def build_index (items : List Value) (id_field : String) : Except PyErr Dict :=
  build_index_from [] items id_field

/-- Whether an item is indexed under the key `k`: it contains the
identity field and its value there equals `k` under Python `==`. -/
def matchesId (id_field : String) (k : Value) (it : Value) : Bool :=
  match pyContains it id_field, pySubscript it id_field with
  | .ok true, .ok k2 => pyEq k2 k
  | _, _ => false

/-! ### `compare_field` and `compute_diffs` (src/diff_tracker.py lines 23-84) -/

/-- `item.get(field)`: `None` when the field is missing.  The engine
calls `.get` only on index values, which are dicts (see
`build_index_values_obj` below); the non-dict branch is unreachable. -/
def dictGet (item : Value) (field : String) : Value :=
  match item with
  | .obj fs => recGetD fs field .null
  | _ => .null

/-- `compare_field(before_item, after_item, field_name)`:
`(changed, before_value, after_value)`. -/
def compare_field (before_item after_item : Value) (field_name : String) :
    Bool × Value × Value :=
  let before_value := dictGet before_item field_name
  let after_value := dictGet after_item field_name
  (before_value != after_value, before_value, after_value)

/-- `after_ids - before_ids` (as key lists: the keys of a dict are
pairwise distinct under Python `==`, so the set of keys holds exactly
the key objects; set difference tests membership under `==` and keeps
the left operand's objects). -/
def added_ids (before_index after_index : Dict) : List Value :=
  (dictKeys after_index).filter (fun k => !(keyMem k (dictKeys before_index)))

/-- `before_ids - after_ids`. -/
def removed_ids (before_index after_index : Dict) : List Value :=
  (dictKeys before_index).filter (fun k => !(keyMem k (dictKeys after_index)))

/-- `before_ids & after_ids`, keeping the before-side key objects.
CPython iterates the smaller operand (its hash order) and keeps that
side's objects, so when a before key and an after key are `==` but
distinct (`1` vs `True`) the surviving object is implementation-order
dependent; every theorem below whose meaning depends on which
representative survives carries a hypothesis (id exactness or
well-keyedness) under which the candidates of the two sides coincide
and the choice is immaterial. -/
def candidate_modified_ids (before_index after_index : Dict) : List Value :=
  (dictKeys before_index).filter (fun k => keyMem k (dictKeys after_index))

/-- `sorted(ids, key=lambda x: str(x))`: stable sort by the string
cast, modelled by (stable) insertion sort under `pyLe`. -/
def sortByStr (l : List Value) : List Value :=
  List.insertionSort (fun a b => pyLe a b = true) l

/-- The `changed_fields` loop body over the comparison fields:
`if changed: changed_fields[field] = \x7b"before": ..., "after": ...\x7d`. -/
def changed_fields_from (acc : Record) (fields : List String)
    (before_item after_item : Value) : Record :=
  match fields with
  | [] => acc
  | field :: rest =>
      let r := compare_field before_item after_item field
      if r.1 then
        changed_fields_from
          (recInsert acc field (.obj [("before", r.2.1), ("after", r.2.2)]))
          rest before_item after_item
      else
        changed_fields_from acc rest before_item after_item

/-- The `changed_fields` dict built for one candidate id. -/
def changed_fields_of (fields : List String) (before_item after_item : Value) : Record :=
  changed_fields_from [] fields before_item after_item

/-- The Python dict literal
`\x7bid_field: id_val, "before": ..., "after": ..., "changed_fields": ...\x7d`
(repeated insertion: a duplicate key overwrites in place). -/
def mkModifiedEntry (id_field : String) (id_val before_item after_item cf : Value) :
    Value :=
  .obj (recInsert (recInsert (recInsert (recInsert [] id_field id_val)
    "before" before_item) "after" after_item) "changed_fields" cf)

/-- The materialized `added_items`. -/
def added_items_of (before_index after_index : Dict) : List Value :=
  (sortByStr (added_ids before_index after_index)).map (dictLookup after_index)

/-- The materialized `removed_items`. -/
def removed_items_of (before_index after_index : Dict) : List Value :=
  (sortByStr (removed_ids before_index after_index)).map (dictLookup before_index)

/-- The candidate ids that contribute a Modified entry (non-empty
`changed_fields`). -/
def modified_ids_of (before_index after_index : Dict) (fields : List String) :
    List Value :=
  (sortByStr (candidate_modified_ids before_index after_index)).filter (fun k =>
    !(changed_fields_of fields (dictLookup before_index k)
        (dictLookup after_index k)).isEmpty)

/-- The candidate ids that contribute nothing to the output — the
spec's "unchanged/omitted" bucket (all tracked fields equal). -/
def unchanged_ids_of (before_index after_index : Dict) (fields : List String) :
    List Value :=
  (sortByStr (candidate_modified_ids before_index after_index)).filter (fun k =>
    (changed_fields_of fields (dictLookup before_index k)
      (dictLookup after_index k)).isEmpty)

/-- The materialized `modified_items`. -/
def modified_items_of (before_index after_index : Dict) (id_field : String)
    (fields : List String) : List Value :=
  (sortByStr (candidate_modified_ids before_index after_index)).filterMap (fun k =>
    let before_item := dictLookup before_index k
    let after_item := dictLookup after_index k
    let cf := changed_fields_of fields before_item after_item
    if cf.isEmpty then none
    else some (mkModifiedEntry id_field k before_item after_item (.obj cf)))

/-- `compute_diffs(before_list, after_list, id_field, fields_to_compare)`:
`(added_items, removed_items, modified_items)`, or the exception the
engine raises. -/
def compute_diffs (before_list after_list : List Value) (id_field : String)
    (fields_to_compare : List String) :
    Except PyErr (List Value × List Value × List Value) :=
  match build_index before_list id_field with
  | .error e => .error e
  | .ok before_index =>
      match build_index after_list id_field with
      | .error e => .error e
      | .ok after_index =>
          .ok (added_items_of before_index after_index,
               removed_items_of before_index after_index,
               modified_items_of before_index after_index id_field fields_to_compare)

/-! ### Deterministic JSON serialization
(`serialize_response`, src/diff_tracker.py lines 110-120):
`json.dumps(response, sort_keys=True, separators=(",", ":"))` encoded
as UTF-8.  Byte-identity of the encoded output is string-identity of
the dump, which is what the theorems below compare. -/

/-- One lowercase hex digit. -/
def hexDigit (n : Nat) : Char :=
  if n < 10 then Char.ofNat (48 + n) else Char.ofNat (87 + n)

/-- Four lowercase hex digits (the `\uXXXX` payload). -/
def hex4 (n : Nat) : String :=
  ⟨[hexDigit (n / 4096 % 16), hexDigit (n / 256 % 16),
    hexDigit (n / 16 % 16), hexDigit (n % 16)]⟩

/-- `json.dumps` escaping of one character (default `ensure_ascii`:
everything outside printable ASCII becomes `\uXXXX`, with surrogate
pairs above the BMP). -/
def escapeChar (c : Char) : String :=
  if c = '"' then "\\\""
  else if c = '\\' then "\\\\"
  else if c = Char.ofNat 8 then "\\b"
  else if c = Char.ofNat 9 then "\\t"
  else if c = Char.ofNat 10 then "\\n"
  else if c = Char.ofNat 12 then "\\f"
  else if c = Char.ofNat 13 then "\\r"
  else if 32 ≤ c.toNat ∧ c.toNat ≤ 126 then String.singleton c
  else if c.toNat ≤ 0xffff then "\\u" ++ hex4 c.toNat
  else "\\u" ++ hex4 (0xD800 + (c.toNat - 0x10000) / 0x400) ++
       "\\u" ++ hex4 (0xDC00 + (c.toNat - 0x10000) % 0x400)

/-- `json.dumps` escaping of a string body. -/
def escapeString (s : String) : String := String.join (s.data.map escapeChar)

mutual

/-- `json.dumps(v, sort_keys=True, separators=(",", ":"))`. -/
def serializeValue : Value → String
  | .null => "null"
  | .bool true => "true"
  | .bool false => "false"
  | .num n => if n < 0 then "-" ++ natDigits n.natAbs else natDigits n.natAbs
  | .str s => "\"" ++ escapeString s ++ "\""
  | .arr xs =>
      "[" ++ String.intercalate "," (serializeList xs) ++ "]"
  | .obj fs =>
      let sortedPairs := List.insertionSort
        (fun a b : String × String => charListLe a.1.data b.1.data = true)
        (serializePairs fs)
      "\x7b" ++ String.intercalate ","
        (sortedPairs.map (fun q => "\"" ++ escapeString q.1 ++ "\":" ++ q.2)) ++ "\x7d"

/-- Serialize the elements of an array. -/
def serializeList : List Value → List String
  | [] => []
  | x :: xs => serializeValue x :: serializeList xs

/-- Serialize the values of an object's fields (keys sorted afterwards). -/
def serializePairs : List (String × Value) → List (String × String)
  | [] => []
  | p :: ps => (p.1, serializeValue p.2) :: serializePairs ps

end

/-! ### Request / response helpers (src/diff_tracker.py lines 91-131) -/

/-- `make_error_response(message)`. -/
def make_error_response (message : String) : Value :=
  .obj [("status", .str "error"), ("error", .str message)]

/-- `make_success_response(...)`. -/
def make_success_response (id_field : String) (fields_to_compare : List String)
    (added_items removed_items modified_items : List Value) : Value :=
  .obj [("status", .str "ok"),
        ("id_field", .str id_field),
        ("fields_to_compare", .arr (fields_to_compare.map .str)),
        ("added_items", .arr added_items),
        ("removed_items", .arr removed_items),
        ("modified_items", .arr modified_items)]

/-- `serialize_response(response_dict)` up to UTF-8 encoding: two
responses have byte-identical encodings iff these strings are equal. -/
def serialize_response (response : Value) : String := serializeValue response

/-! ### `validate_request` (src/diff_tracker.py lines 134-170)

A request is the decoded JSON object, i.e. a `Record`.  (Decoding the
raw bytes — `parse_request_bytes` — is byte-level JSON parsing shared
by every run and is not modelled; all claims below are about decoded
requests.) -/

/-- Python `str.strip()` whitespace (the ASCII part). -/
def pyIsSpace (c : Char) : Bool :=
  c = ' ' || c = Char.ofNat 9 || c = Char.ofNat 10 || c = Char.ofNat 13 ||
  c = Char.ofNat 11 || c = Char.ofNat 12

/-- Drop leading whitespace from a char list. -/
def dropLeadingSpace : List Char → List Char
  | [] => []
  | c :: cs => if pyIsSpace c then dropLeadingSpace cs else c :: cs

/-- Python `s.strip()`. -/
def pyStrip (s : String) : String :=
  ⟨(dropLeadingSpace (dropLeadingSpace s.data).reverse).reverse⟩

/-- The validated pieces `(id_field, fields_to_compare, before_list,
after_list)` that `validate_request` hands to `compute_diffs`. -/
structure ValidatedRequest where
  id_field : String
  fields_to_compare : List String
  before_list : List Value
  after_list : List Value
deriving DecidableEq

/-- The element loop over `fields_to_compare`: `none` iff some entry is
not a string or strips to empty, otherwise the entries as strings. -/
def extractFields : List Value → Option (List String)
  | [] => some []
  | .str s :: rest =>
      if (pyStrip s).isEmpty then none
      else (extractFields rest).map (fun fs => s :: fs)
  | _ :: _ => none

/-- `validate_request(request)`: either the validated pieces or the
error response the source returns (`Except.error` carries the value
`make_error_response(...)` built at the failing check). -/
def validate_request (request : Record) : Except Value ValidatedRequest :=
  if !(recGetD request "request_type" .null == Value.str "change_diff") then
    .error (make_error_response "Unsupported request_type. Expected \x27change_diff\x27.")
  else
    match recGetD request "id_field" (.str "id") with
    | .str idf =>
        if (pyStrip idf).isEmpty then
          .error (make_error_response "\x27id_field\x27 must be a non-empty string.")
        else
          match recGetD request "fields_to_compare" .null with
          | .arr fieldVals =>
              if fieldVals.isEmpty then
                .error (make_error_response
                  "\x27fields_to_compare\x27 must be a non-empty list of field names.")
              else
                match extractFields fieldVals with
                | none =>
                    .error (make_error_response
                      "All entries in \x27fields_to_compare\x27 must be non-empty strings.")
                | some fs =>
                    match recGetD request "before" .null, recGetD request "after" .null with
                    | .arr before_list, .arr after_list =>
                        .ok ⟨idf, fs, before_list, after_list⟩
                    | _, _ =>
                        .error (make_error_response
                          "\x27before\x27 and \x27after\x27 must both be lists.")
          | _ =>
              .error (make_error_response
                "\x27fields_to_compare\x27 must be a non-empty list of field names.")
    | _ => .error (make_error_response "\x27id_field\x27 must be a non-empty string.")

/-! ### `handle_message` (lines 173-197) and the server loop (211-234) -/

/-- `handle_message` on a decoded request: the serialized response, or
the exception that escapes it (validation errors are answered, engine
exceptions propagate to the caller). -/
def handle_parsed (request : Record) : Except PyErr String :=
  match validate_request request with
  | .error resp => .ok (serialize_response resp)
  | .ok v =>
      match compute_diffs v.before_list v.after_list v.id_field v.fields_to_compare with
      | .error e => .error e
      | .ok (a, r, m) =>
          .ok (serialize_response
            (make_success_response v.id_field v.fields_to_compare a r m))

/-- One iteration of `run_server`'s loop for one decoded request: an
exception from `handle_message` is caught and answered as
`"Internal error: " + str(e)`. -/
def server_step (request : Record) : String :=
  match handle_parsed request with
  | .ok s => s
  | .error e => serialize_response (make_error_response ("Internal error: " ++ e.message))

/-- A well-formed `change_diff` request assembled from its pieces. -/
def mkRequest (id_field : String) (fields : List String)
    (before_list after_list : List Value) : Record :=
  [("request_type", .str "change_diff"),
   ("id_field", .str id_field),
   ("fields_to_compare", .arr (fields.map .str)),
   ("before", .arr before_list),
   ("after", .arr after_list)]

/-! ### Concrete inputs used by the claims -/

/-- `\x7b"id":1,"name":"Alice"\x7d`. -/
def recAlice : Value := .obj [("id", .num 1), ("name", .str "Alice")]

/-- `\x7b"id":2,"name":"Bob"\x7d`. -/
def recBob : Value := .obj [("id", .num 2), ("name", .str "Bob")]

/-- `\x7b"id":2,"name":"Bobby"\x7d`. -/
def recBobby : Value := .obj [("id", .num 2), ("name", .str "Bobby")]

/-- `\x7b"id":3,"name":"Cara"\x7d`. -/
def recCara : Value := .obj [("id", .num 3), ("name", .str "Cara")]

/-- A record whose identity value is a list — unhashable, yet allowed
by the data model and by `validate_request`. -/
def recUnhashable : Value := .obj [("id", .arr [.num 1]), ("name", .str "A")]

/-- A valid request whose before snapshot holds `recUnhashable`. -/
def reqUnhashable : Record :=
  [("request_type", .str "change_diff"),
   ("fields_to_compare", .arr [.str "name"]),
   ("before", .arr [recUnhashable]),
   ("after", .arr [])]

/-- `\x7b"id":1,"name":"A"\x7d` (duplicate-identity scenario). -/
def recDupA : Value := .obj [("id", .num 1), ("name", .str "A")]

/-- `\x7b"id":1,"name":"B"\x7d` (duplicate-identity scenario). -/
def recDupB : Value := .obj [("id", .num 1), ("name", .str "B")]

/-- `\x7b"id":1,"name":"C"\x7d` (duplicate-identity scenario). -/
def recDupC : Value := .obj [("id", .num 1), ("name", .str "C")]

/-- `\x7b"id":1,"n":"a"\x7d` — integer identity 1. -/
def recTid1 : Value := .obj [("id", .num 1), ("n", .str "a")]

/-- `\x7b"id":true,"n":"b"\x7d` — boolean identity `True`, which Python
unifies with the dict key `1`. -/
def recTidTrue : Value := .obj [("id", .bool true), ("n", .str "b")]

/-- `\x7b"id":2,"n":"c"\x7d` — integer identity 2. -/
def recTid2 : Value := .obj [("id", .num 2), ("n", .str "c")]

/-- `\x7b"before":1,"name":"x"\x7d` — a record whose identity field is the
reserved key `"before"`. -/
def recColX : Value := .obj [("before", .num 1), ("name", .str "x")]

/-- `\x7b"before":1,"name":"y"\x7d`. -/
def recColY : Value := .obj [("before", .num 1), ("name", .str "y")]

/-- The Modified entry `compute_diffs` produces for the
`recColX`/`recColY` pair under `id_field = "before"`. -/
def colEntry : Value :=
  .obj [("before", recColX), ("after", recColY),
    ("changed_fields", .obj [("name", .obj [("before", .str "x"), ("after", .str "y")])])]

/-- The identity value a record contributes to the index, if any
(mapping records only; others never reach the index). -/
def recordId (id_field : String) : Value → Option Value
  | .obj fs => (fs.find? (fun p => p.1 == id_field)).map (fun p => p.2)
  | _ => none

/-- The identity values of a snapshot's records, in order. -/
def snapshotIds (items : List Value) (id_field : String) : List Value :=
  items.filterMap (recordId id_field)

/-- A snapshot on which reconciliation is order-independent: every
record is a mapping, the identity values are hashable, pairwise
non-equal under Python `==` (so no dict-key unification — neither a
duplicate id nor a `1`-versus-`True` pair — lets last-write-wins leak
input order), and their string casts are pairwise distinct (so
sort-key ties cannot leak input order either). -/
def WellKeyed (items : List Value) (id_field : String) : Prop :=
  (∀ it ∈ items, ∃ fs, it = Value.obj fs) ∧
  (∀ k ∈ snapshotIds items id_field, isHashable k = true) ∧
  List.Pairwise (fun x y => pyEq x y = false) (snapshotIds items id_field) ∧
  List.Pairwise (fun x y => pyStr x ≠ pyStr y) (snapshotIds items id_field)

/-- The index as a pure association list: what the loop builds when no
identity is duplicated and nothing raises. -/
def indexPairs (items : List Value) (id_field : String) : Dict :=
  items.filterMap (fun it => (recordId id_field it).map (fun k => (k, it)))

/-- An entry the `fields_to_compare` element loop rejects: not a
string, or a string whose `strip()` is empty. -/
def badField : Value → Bool
  | .str s => (pyStrip s).isEmpty
  | _ => true

/-- A request whose before snapshot holds the non-mapping element `1`. -/
def reqNonMapping : Record :=
  [("request_type", .str "change_diff"),
   ("fields_to_compare", .arr [.str "name"]),
   ("before", .arr [.num 1]),
   ("after", .arr [])]

/-- A request whose `fields_to_compare` is `[" "]` — a non-empty string
that strips to empty. -/
def reqBlankField : Record :=
  [("request_type", .str "change_diff"),
   ("fields_to_compare", .arr [.str " "]),
   ("before", .arr []),
   ("after", .arr [])]

/-- `\x7b"name":"Zoe"\x7d` — a record lacking the identity field. -/
def recNoId : Value := .obj [("name", .str "Zoe")]

/-- A request with `fields_to_compare: []`. -/
def reqEmptyFields : Record :=
  [("request_type", .str "change_diff"),
   ("fields_to_compare", .arr []),
   ("before", .arr [recAlice]),
   ("after", .arr [recAlice])]

/-! ## Lemmas: the dict model -/

theorem dictInsert_mem {m : Dict} {k v : Value} :
    ∀ p ∈ dictInsert m k v,
      p ∈ m ∨ p = (k, v) ∨ ∃ q ∈ m, pyEq q.1 k = true ∧ p = (q.1, v) := by
  intro p hp
  unfold dictInsert at hp
  split at hp
  · rw [List.mem_map] at hp
    obtain ⟨q, hq, hqe⟩ := hp
    by_cases h : pyEq q.1 k
    · right; right
      rw [if_pos h] at hqe
      exact ⟨q, hq, h, hqe.symm⟩
    · left
      rw [if_neg h] at hqe
      rw [← hqe]; exact hq
  · rcases List.mem_append.mp hp with h | h
    · exact Or.inl h
    · right; left
      simpa using h

theorem dictKeys_replace (m : Dict) (k v : Value) :
    dictKeys (m.map (fun p => if pyEq p.1 k then (p.1, v) else p)) = dictKeys m := by
  simp only [dictKeys, List.map_map]
  apply List.map_congr_left
  intro p _
  by_cases h : pyEq p.1 k
  · simp only [Function.comp_apply, if_pos h]
  · simp only [Function.comp_apply, if_neg h]

theorem dictKeys_dictInsert (m : Dict) (k v : Value) :
    dictKeys (dictInsert m k v) =
      if m.any (fun p => pyEq p.1 k) then dictKeys m else dictKeys m ++ [k] := by
  by_cases hany : m.any (fun p => pyEq p.1 k)
  · rw [if_pos hany]
    unfold dictInsert
    rw [if_pos hany, dictKeys_replace]
  · rw [if_neg hany]
    unfold dictInsert
    rw [if_neg hany]
    simp [dictKeys]

theorem mem_dictKeys_dictInsert {m : Dict} {k v : Value} {x : Value}
    (h : x ∈ dictKeys (dictInsert m k v)) : x ∈ dictKeys m ∨ x = k := by
  rw [dictKeys_dictInsert] at h
  split at h
  · exact Or.inl h
  · rcases List.mem_append.mp h with h1 | h1
    · exact Or.inl h1
    · exact Or.inr (List.mem_singleton.mp h1)

theorem mem_dictKeys_dictInsert_of_mem {m : Dict} {k v x : Value}
    (h : x ∈ dictKeys m) : x ∈ dictKeys (dictInsert m k v) := by
  rw [dictKeys_dictInsert]
  split
  · exact h
  · exact List.mem_append.mpr (Or.inl h)

theorem keyMem_of_mem {k : Value} {l : List Value} (h : k ∈ l) : keyMem k l = true :=
  List.any_eq_true.mpr ⟨k, h, pyEq_refl k⟩

theorem keyMem_dictInsert_of_keyMem {m : Dict} {k v x : Value}
    (h : keyMem x (dictKeys m) = true) :
    keyMem x (dictKeys (dictInsert m k v)) = true := by
  rw [keyMem, List.any_eq_true] at h ⊢
  obtain ⟨y, hy, hxy⟩ := h
  exact ⟨y, mem_dictKeys_dictInsert_of_mem hy, hxy⟩

theorem keyMem_dictInsert_key (m : Dict) (k v : Value) :
    keyMem k (dictKeys (dictInsert m k v)) = true := by
  rw [dictKeys_dictInsert]
  by_cases hany : m.any (fun p => pyEq p.1 k)
  · rw [if_pos hany]
    rw [keyMem, List.any_eq_true]
    rw [List.any_eq_true] at hany
    obtain ⟨p, hp, hpk⟩ := hany
    exact ⟨p.1, List.mem_map.mpr ⟨p, hp, rfl⟩, hpk⟩
  · rw [if_neg hany]
    rw [keyMem, List.any_eq_true]
    exact ⟨k, List.mem_append.mpr (Or.inr (List.mem_singleton.mpr rfl)), pyEq_refl k⟩

/-- The key-list invariant of a Python dict: keys are pairwise distinct
under Python `==` (two `==`-equal keys can never coexist). -/
def KeysOk (l : List Value) : Prop :=
  List.Pairwise (fun x y => pyEq x y = false) l

theorem KeysOk.nodup {l : List Value} (h : KeysOk l) : l.Nodup := by
  refine h.imp ?_
  intro a b hab hEq
  rw [hEq, pyEq_refl] at hab
  cases hab

theorem KeysOk.eq_of_pyEq {l : List Value} (h : KeysOk l) {x y : Value}
    (hx : x ∈ l) (hy : y ∈ l) (hpe : pyEq x y = true) : x = y := by
  by_contra hne
  have hfalse := List.Pairwise.forall (fun a b hab => pyEq_symm_false hab) h hx hy hne
  rw [hfalse] at hpe
  cases hpe

theorem keysOk_dictInsert {m : Dict} {k v : Value} (h : KeysOk (dictKeys m)) :
    KeysOk (dictKeys (dictInsert m k v)) := by
  rw [dictKeys_dictInsert]
  by_cases hany : m.any (fun p => pyEq p.1 k)
  · rw [if_pos hany]; exact h
  · rw [if_neg hany]
    rw [KeysOk, List.pairwise_append]
    refine ⟨h, List.pairwise_singleton _ _, ?_⟩
    intro x hx y hy
    rw [List.mem_singleton] at hy
    subst hy
    cases hpe : pyEq x y
    · rfl
    · exfalso
      apply hany
      rw [List.any_eq_true]
      obtain ⟨p, hp, hpx⟩ := List.mem_map.mp hx
      refine ⟨p, hp, ?_⟩
      show pyEq p.1 y = true
      rw [hpx]
      exact hpe

theorem dictLookup_nil (k : Value) : dictLookup [] k = .null := rfl

theorem dictLookup_cons_pos {p : Value × Value} {rest : Dict} {k : Value}
    (h : pyEq p.1 k = true) : dictLookup (p :: rest) k = p.2 := by
  simp [dictLookup, List.find?_cons, h]

theorem dictLookup_cons_neg {p : Value × Value} {rest : Dict} {k : Value}
    (h : pyEq p.1 k = false) : dictLookup (p :: rest) k = dictLookup rest k := by
  simp [dictLookup, List.find?_cons, h]

theorem lookup_replace_self (m : Dict) (k v k' : Value) (hk : pyEq k k' = true)
    (hany : m.any (fun p => pyEq p.1 k) = true) :
    dictLookup (m.map (fun p => if pyEq p.1 k then (p.1, v) else p)) k' = v := by
  induction m with
  | nil => simp at hany
  | cons p rest ih =>
      rw [List.map_cons]
      by_cases h : pyEq p.1 k
      · rw [if_pos h]
        exact dictLookup_cons_pos (p := (p.1, v)) (pyEq_trans h hk)
      · rw [if_neg h]
        rw [Bool.not_eq_true] at h
        have hp2 : pyEq p.1 k' = false := by
          cases hc : pyEq p.1 k'
          · rfl
          · rw [pyEq_trans hc (pyEq_symm hk)] at h
            cases h
        rw [dictLookup_cons_neg hp2]
        have hany2 : rest.any (fun p => pyEq p.1 k) = true := by
          rw [List.any_cons, h, Bool.false_or] at hany
          exact hany
        exact ih hany2

theorem lookup_replace_other (m : Dict) (k v k' : Value) (hk : pyEq k k' = false) :
    dictLookup (m.map (fun p => if pyEq p.1 k then (p.1, v) else p)) k' =
      dictLookup m k' := by
  induction m with
  | nil => rfl
  | cons p rest ih =>
      rw [List.map_cons]
      by_cases h : pyEq p.1 k
      · rw [if_pos h]
        have hp2 : pyEq p.1 k' = false := by
          cases hc : pyEq p.1 k'
          · rfl
          · rw [pyEq_trans (pyEq_symm h) hc] at hk
            cases hk
        rw [dictLookup_cons_neg (p := (p.1, v)) hp2, dictLookup_cons_neg hp2]
        exact ih
      · rw [if_neg h]
        by_cases h2 : pyEq p.1 k'
        · rw [dictLookup_cons_pos h2, dictLookup_cons_pos h2]
        · rw [Bool.not_eq_true] at h2
          rw [dictLookup_cons_neg h2, dictLookup_cons_neg h2]
          exact ih

theorem lookup_append_single_self (m : Dict) (k v k' : Value) (hk : pyEq k k' = true)
    (hm : ∀ p ∈ m, pyEq p.1 k' = false) :
    dictLookup (m ++ [(k, v)]) k' = v := by
  induction m with
  | nil =>
      rw [List.nil_append]
      exact dictLookup_cons_pos (p := (k, v)) hk
  | cons p rest ih =>
      rw [List.cons_append, dictLookup_cons_neg (hm p (List.mem_cons_self p rest))]
      exact ih (fun q hq => hm q (List.mem_cons_of_mem _ hq))

theorem lookup_append_single_other (m : Dict) (k v k' : Value) (hk : pyEq k k' = false) :
    dictLookup (m ++ [(k, v)]) k' = dictLookup m k' := by
  induction m with
  | nil =>
      rw [List.nil_append, dictLookup_cons_neg (p := (k, v)) hk]
  | cons p rest ih =>
      by_cases h : pyEq p.1 k'
      · rw [List.cons_append, dictLookup_cons_pos h, dictLookup_cons_pos h]
      · rw [Bool.not_eq_true] at h
        rw [List.cons_append, dictLookup_cons_neg h, dictLookup_cons_neg h]
        exact ih

theorem dictLookup_dictInsert_self (m : Dict) (k v k' : Value)
    (hk : pyEq k k' = true) : dictLookup (dictInsert m k v) k' = v := by
  unfold dictInsert
  by_cases hany : m.any (fun p => pyEq p.1 k)
  · rw [if_pos hany]
    exact lookup_replace_self m k v k' hk hany
  · rw [if_neg hany]
    refine lookup_append_single_self m k v k' hk ?_
    intro p hp
    cases hc : pyEq p.1 k'
    · rfl
    · exfalso
      apply hany
      rw [List.any_eq_true]
      exact ⟨p, hp, pyEq_trans hc (pyEq_symm hk)⟩

theorem dictLookup_dictInsert_other (m : Dict) (k v k' : Value)
    (hk : pyEq k k' = false) :
    dictLookup (dictInsert m k v) k' = dictLookup m k' := by
  unfold dictInsert
  by_cases hany : m.any (fun p => pyEq p.1 k)
  · rw [if_pos hany]
    exact lookup_replace_other m k v k' hk
  · rw [if_neg hany]
    exact lookup_append_single_other m k v k' hk

theorem dictLookup_mem {m : Dict} {k : Value} (h : keyMem k (dictKeys m) = true) :
    ∃ p ∈ m, pyEq p.1 k = true ∧ dictLookup m k = p.2 := by
  induction m with
  | nil => simp [keyMem, dictKeys] at h
  | cons q rest ih =>
      by_cases hq : pyEq q.1 k
      · exact ⟨q, List.mem_cons_self q rest, hq, dictLookup_cons_pos hq⟩
      · rw [Bool.not_eq_true] at hq
        have h2 : keyMem k (dictKeys rest) = true := by
          rw [keyMem, List.any_eq_true] at h
          obtain ⟨y, hy, hyk⟩ := h
          simp only [dictKeys, List.map_cons, List.mem_cons] at hy
          rcases hy with rfl | hy
          · rw [hyk] at hq
            cases hq
          · exact List.any_eq_true.mpr ⟨y, hy, hyk⟩
        obtain ⟨p, hp, hpk, hlv⟩ := ih h2
        exact ⟨p, List.mem_cons_of_mem _ hp, hpk,
          by rw [dictLookup_cons_neg hq]; exact hlv⟩

/-! ## Lemmas: `build_index` -/

/-- Every entry the index loop creates: the value is a record whose
identity value is Python-equal to the key (equal, not necessarily
identical: inserting `{id: True}` over the key `1` keeps the key `1`),
and the key is hashable. -/
def GoodEntry (id_field : String) (p : Value × Value) : Prop :=
  (∃ k2, pySubscript p.2 id_field = .ok k2 ∧ pyEq k2 p.1 = true) ∧
    isHashable p.1 = true

/-- The identity values the index loop reads off a snapshot, in order:
`item[id_field]` for each item that has the field. -/
def subscriptIds (items : List Value) (id_field : String) : List Value :=
  items.filterMap (fun it =>
    match pySubscript it id_field with
    | .ok k => some k
    | .error _ => none)

/-- No two identity values read off `items` are Python-equal yet
distinct as values: rules out `1`-versus-`True`-style dict-key
unification among the snapshot identities. -/
def NoCoercedIds (items : List Value) (id_field : String) : Prop :=
  ∀ k1 ∈ subscriptIds items id_field, ∀ k2 ∈ subscriptIds items id_field,
    pyEq k1 k2 = true → k1 = k2

instance (items : List Value) (id_field : String) :
    Decidable (NoCoercedIds items id_field) :=
  List.decidableBAll _ _

theorem mem_subscriptIds {items : List Value} {id_field : String} {it k : Value}
    (hit : it ∈ items) (hs : pySubscript it id_field = .ok k) :
    k ∈ subscriptIds items id_field := by
  rw [subscriptIds, List.mem_filterMap]
  exact ⟨it, hit, by rw [hs]⟩

theorem pySubscript_ok_obj {v k : Value} {f : String} (h : pySubscript v f = .ok k) :
    ∃ fs, v = .obj fs := by
  cases v
  case obj fs => exact ⟨fs, rfl⟩
  all_goals simp [pySubscript] at h

theorem dictGet_of_pySubscript {v k : Value} {f : String} (h : pySubscript v f = .ok k) :
    dictGet v f = k := by
  obtain ⟨fs, rfl⟩ := pySubscript_ok_obj h
  simp only [pySubscript] at h
  cases hf : fs.find? (fun q => q.1 == f) with
  | none => rw [hf] at h; cases h
  | some q =>
      rw [hf] at h
      cases h
      simp [dictGet, recGetD, hf]

theorem pyContains_of_pySubscript {v k : Value} {f : String} (h : pySubscript v f = .ok k) :
    pyContains v f = .ok true := by
  obtain ⟨fs, rfl⟩ := pySubscript_ok_obj h
  simp only [pySubscript] at h
  cases hf : fs.find? (fun q => q.1 == f) with
  | none => rw [hf] at h; cases h
  | some q =>
      simp only [pyContains, Except.ok.injEq]
      exact List.any_eq_true.mpr
        ⟨q, List.mem_of_find?_eq_some hf,
         List.find?_some (p := fun x : String × Value => x.1 == f) hf⟩

theorem build_index_from_good {id_field : String} :
    ∀ (items : List Value) (acc idx : Dict),
    (∀ p ∈ acc, GoodEntry id_field p) →
    build_index_from acc items id_field = .ok idx →
    ∀ p ∈ idx, GoodEntry id_field p := by
  intro items
  induction items with
  | nil =>
      intro acc idx hacc h
      simp only [build_index_from, Except.ok.injEq] at h
      rw [← h]; exact hacc
  | cons item rest ih =>
      intro acc idx hacc h
      simp only [build_index_from] at h
      cases hc : pyContains item id_field with
      | error e => rw [hc] at h; cases h
      | ok b =>
          rw [hc] at h
          cases b with
          | false => exact ih acc idx hacc h
          | true =>
              cases hs : pySubscript item id_field with
              | error e => rw [hs] at h; cases h
              | ok k =>
                  rw [hs] at h
                  have h2 : (if isHashable k then
                      build_index_from (dictInsert acc k item) rest id_field
                    else
                      .error (.typeError ("unhashable type: \x27" ++ pyTypeName k ++ "\x27"))) = .ok idx := h
                  by_cases hh : isHashable k
                  · rw [if_pos hh] at h2
                    refine ih _ idx ?_ h2
                    intro p hp
                    rcases dictInsert_mem p hp with hmem | hpe | ⟨q, hq, hqk, hpe⟩
                    · exact hacc p hmem
                    · subst hpe
                      exact ⟨⟨k, hs, pyEq_refl k⟩, hh⟩
                    · subst hpe
                      exact ⟨⟨k, hs, pyEq_symm hqk⟩, (hacc q hq).2⟩
                  · rw [if_neg hh] at h2
                    cases h2

theorem build_index_good {items : List Value} {id_field : String} {idx : Dict}
    (h : build_index items id_field = .ok idx) :
    ∀ p ∈ idx, GoodEntry id_field p :=
  build_index_from_good items [] idx (by intro p hp; cases hp) h

theorem build_index_from_origin {id_field : String} {L : List Value} :
    ∀ (items : List Value) (acc idx : Dict),
    (∀ it ∈ items, it ∈ L) →
    (∀ p ∈ acc, p.2 ∈ L ∧ ∃ it ∈ L, pySubscript it id_field = .ok p.1) →
    build_index_from acc items id_field = .ok idx →
    ∀ p ∈ idx, p.2 ∈ L ∧ ∃ it ∈ L, pySubscript it id_field = .ok p.1 := by
  intro items
  induction items with
  | nil =>
      intro acc idx _ hacc h
      simp only [build_index_from, Except.ok.injEq] at h
      rw [← h]; exact hacc
  | cons item rest ih =>
      intro acc idx hsub hacc h
      simp only [build_index_from] at h
      cases hc : pyContains item id_field with
      | error e => rw [hc] at h; cases h
      | ok b =>
          rw [hc] at h
          cases b with
          | false =>
              exact ih acc idx (fun it hit => hsub it (List.mem_cons_of_mem _ hit)) hacc h
          | true =>
              cases hs : pySubscript item id_field with
              | error e => rw [hs] at h; cases h
              | ok k =>
                  rw [hs] at h
                  have h2 : (if isHashable k then
                      build_index_from (dictInsert acc k item) rest id_field
                    else
                      .error (.typeError ("unhashable type: \x27" ++ pyTypeName k ++ "\x27"))) = .ok idx := h
                  by_cases hh : isHashable k
                  · rw [if_pos hh] at h2
                    refine ih _ idx
                      (fun it hit => hsub it (List.mem_cons_of_mem _ hit)) ?_ h2
                    intro p hp
                    have hitem : item ∈ L := hsub item (List.mem_cons_self item rest)
                    rcases dictInsert_mem p hp with hmem | hpe | ⟨q, hq, hqk, hpe⟩
                    · exact hacc p hmem
                    · subst hpe
                      exact ⟨hitem, item, hitem, hs⟩
                    · subst hpe
                      exact ⟨hitem, (hacc q hq).2⟩
                  · rw [if_neg hh] at h2
                    cases h2

theorem build_index_origin {items : List Value} {id_field : String} {idx : Dict}
    (h : build_index items id_field = .ok idx) :
    ∀ p ∈ idx, p.2 ∈ items ∧ ∃ it ∈ items, pySubscript it id_field = .ok p.1 :=
  build_index_from_origin items [] idx (fun _ hit => hit)
    (by intro p hp; cases hp) h

/-- Under `NoCoercedIds` every index entry is exact: the stored
record's own identity value is the key itself. -/
theorem build_index_exact {items : List Value} {id_field : String} {idx : Dict}
    (h : build_index items id_field = .ok idx)
    (hnc : NoCoercedIds items id_field) :
    ∀ p ∈ idx, pySubscript p.2 id_field = .ok p.1 := by
  intro p hp
  obtain ⟨⟨k2, hs, hpe⟩, _⟩ := build_index_good h p hp
  obtain ⟨hmem, it, hit, hits⟩ := build_index_origin h p hp
  rw [← hnc k2 (mem_subscriptIds hmem hs) p.1 (mem_subscriptIds hit hits) hpe]
  exact hs

theorem subscriptIds_append (l1 l2 : List Value) (id_field : String) :
    subscriptIds (l1 ++ l2) id_field =
      subscriptIds l1 id_field ++ subscriptIds l2 id_field :=
  List.filterMap_append l1 l2 _

theorem NoCoercedIds_append_left {l1 l2 : List Value} {id_field : String}
    (h : NoCoercedIds (l1 ++ l2) id_field) : NoCoercedIds l1 id_field := by
  intro k1 h1 k2 h2 hpe
  refine h k1 ?_ k2 ?_ hpe <;>
    rw [subscriptIds_append] <;> exact List.mem_append.mpr (Or.inl (by assumption))

theorem NoCoercedIds_append_right {l1 l2 : List Value} {id_field : String}
    (h : NoCoercedIds (l1 ++ l2) id_field) : NoCoercedIds l2 id_field := by
  intro k1 h1 k2 h2 hpe
  refine h k1 ?_ k2 ?_ hpe <;>
    rw [subscriptIds_append] <;> exact List.mem_append.mpr (Or.inr (by assumption))

/-- Under `NoCoercedIds`, subscripting the index with one of its own
keys returns a record whose identity value is that key itself. -/
theorem build_index_exact_lookup {items : List Value} {id_field : String} {idx : Dict}
    (h : build_index items id_field = .ok idx)
    (hnc : NoCoercedIds items id_field) {k : Value} (hk : k ∈ dictKeys idx) :
    dictGet (dictLookup idx k) id_field = k := by
  obtain ⟨p, hp, hpe, hlk⟩ := dictLookup_mem (keyMem_of_mem hk)
  have hex := build_index_exact h hnc p hp
  obtain ⟨q, hq, hq1⟩ := List.mem_map.mp hk
  have hkmem : k ∈ subscriptIds items id_field := by
    obtain ⟨_, it, hit, hits⟩ := build_index_origin h q hq
    exact mem_subscriptIds hit (hq1 ▸ hits)
  have hpmem : p.1 ∈ subscriptIds items id_field := by
    obtain ⟨_, it, hit, hits⟩ := build_index_origin h p hp
    exact mem_subscriptIds hit hits
  have hp1k : p.1 = k := hnc p.1 hpmem k hkmem hpe
  rw [hlk, dictGet_of_pySubscript hex, hp1k]

theorem build_index_from_keys_sub {id_field : String} :
    ∀ (items : List Value) (acc idx : Dict),
    build_index_from acc items id_field = .ok idx →
    ∀ k ∈ dictKeys idx,
      k ∈ dictKeys acc ∨ ∃ item ∈ items,
        pyContains item id_field = .ok true ∧ pySubscript item id_field = .ok k := by
  intro items
  induction items with
  | nil =>
      intro acc idx h k hk
      simp only [build_index_from, Except.ok.injEq] at h
      rw [← h] at hk
      exact Or.inl hk
  | cons item rest ih =>
      intro acc idx h k hk
      simp only [build_index_from] at h
      cases hc : pyContains item id_field with
      | error e => rw [hc] at h; cases h
      | ok b =>
          rw [hc] at h
          cases b with
          | false =>
              rcases ih acc idx h k hk with ha | ⟨it, hit, hprop⟩
              · exact Or.inl ha
              · exact Or.inr ⟨it, List.mem_cons_of_mem _ hit, hprop⟩
          | true =>
              cases hs : pySubscript item id_field with
              | error e => rw [hs] at h; cases h
              | ok k0 =>
                  rw [hs] at h
                  have h2 : (if isHashable k0 then
                      build_index_from (dictInsert acc k0 item) rest id_field
                    else
                      .error (.typeError ("unhashable type: \x27" ++ pyTypeName k0 ++ "\x27"))) = .ok idx := h
                  by_cases hh : isHashable k0
                  · rw [if_pos hh] at h2
                    rcases ih _ idx h2 k hk with ha | ⟨it, hit, hprop⟩
                    · rcases mem_dictKeys_dictInsert ha with ha2 | rfl
                      · exact Or.inl ha2
                      · exact Or.inr ⟨item, List.mem_cons_self item rest, hc, hs⟩
                    · exact Or.inr ⟨it, List.mem_cons_of_mem _ hit, hprop⟩
                  · rw [if_neg hh] at h2
                    cases h2

theorem build_index_keys_sub {items : List Value} {id_field : String} {idx : Dict}
    (h : build_index items id_field = .ok idx) :
    ∀ k ∈ dictKeys idx, ∃ item ∈ items,
      pyContains item id_field = .ok true ∧ pySubscript item id_field = .ok k := by
  intro k hk
  rcases build_index_from_keys_sub items [] idx h k hk with ha | hb
  · cases ha
  · exact hb

theorem build_index_from_keyMem_mono {id_field : String} :
    ∀ (items : List Value) (acc idx : Dict),
    build_index_from acc items id_field = .ok idx →
    ∀ x, keyMem x (dictKeys acc) = true → keyMem x (dictKeys idx) = true := by
  intro items
  induction items with
  | nil =>
      intro acc idx h x hx
      simp only [build_index_from, Except.ok.injEq] at h
      rw [← h]
      exact hx
  | cons item rest ih =>
      intro acc idx h x hx
      simp only [build_index_from] at h
      cases hc : pyContains item id_field with
      | error e => rw [hc] at h; cases h
      | ok b =>
          rw [hc] at h
          cases b with
          | false => exact ih acc idx h x hx
          | true =>
              cases hs : pySubscript item id_field with
              | error e => rw [hs] at h; cases h
              | ok k0 =>
                  rw [hs] at h
                  have h2 : (if isHashable k0 then
                      build_index_from (dictInsert acc k0 item) rest id_field
                    else
                      .error (.typeError ("unhashable type: \x27" ++ pyTypeName k0 ++ "\x27"))) = .ok idx := h
                  by_cases hh : isHashable k0
                  · rw [if_pos hh] at h2
                    exact ih _ idx h2 x (keyMem_dictInsert_of_keyMem hx)
                  · rw [if_neg hh] at h2
                    cases h2

theorem build_index_from_keys_mem {id_field : String} :
    ∀ (items : List Value) (acc idx : Dict),
    build_index_from acc items id_field = .ok idx →
    ∀ item ∈ items, ∀ k, pyContains item id_field = .ok true →
      pySubscript item id_field = .ok k → keyMem k (dictKeys idx) = true := by
  intro items
  induction items with
  | nil =>
      intro acc idx h item hit
      cases hit
  | cons item0 rest ih =>
      intro acc idx h item hit k hc hs
      simp only [build_index_from] at h
      rcases List.mem_cons.mp hit with rfl | hmem
      · rw [hc, hs] at h
        have h2 : (if isHashable k then
            build_index_from (dictInsert acc k item) rest id_field
          else
            .error (.typeError ("unhashable type: \x27" ++ pyTypeName k ++ "\x27"))) = .ok idx := h
        by_cases hh : isHashable k
        · rw [if_pos hh] at h2
          exact build_index_from_keyMem_mono rest _ idx h2 k
            (keyMem_dictInsert_key acc k item)
        · rw [if_neg hh] at h2
          cases h2
      · cases hc0 : pyContains item0 id_field with
        | error e => rw [hc0] at h; cases h
        | ok b =>
            rw [hc0] at h
            cases b with
            | false => exact ih acc idx h item hmem k hc hs
            | true =>
                cases hs0 : pySubscript item0 id_field with
                | error e => rw [hs0] at h; cases h
                | ok k0 =>
                    rw [hs0] at h
                    have h2 : (if isHashable k0 then
                        build_index_from (dictInsert acc k0 item0) rest id_field
                      else
                        .error (.typeError ("unhashable type: \x27" ++ pyTypeName k0 ++ "\x27"))) = .ok idx := h
                    by_cases hh : isHashable k0
                    · rw [if_pos hh] at h2
                      exact ih _ idx h2 item hmem k hc hs
                    · rw [if_neg hh] at h2
                      cases h2

theorem build_index_keys_mem {items : List Value} {id_field : String} {idx : Dict}
    (h : build_index items id_field = .ok idx) :
    ∀ item ∈ items, ∀ k, pyContains item id_field = .ok true →
      pySubscript item id_field = .ok k → keyMem k (dictKeys idx) = true :=
  build_index_from_keys_mem items [] idx h

theorem build_index_from_keysOk {id_field : String} :
    ∀ (items : List Value) (acc idx : Dict),
    KeysOk (dictKeys acc) →
    build_index_from acc items id_field = .ok idx →
    KeysOk (dictKeys idx) := by
  intro items
  induction items with
  | nil =>
      intro acc idx hacc h
      simp only [build_index_from, Except.ok.injEq] at h
      rw [← h]; exact hacc
  | cons item rest ih =>
      intro acc idx hacc h
      simp only [build_index_from] at h
      cases hc : pyContains item id_field with
      | error e => rw [hc] at h; cases h
      | ok b =>
          rw [hc] at h
          cases b with
          | false => exact ih acc idx hacc h
          | true =>
              cases hs : pySubscript item id_field with
              | error e => rw [hs] at h; cases h
              | ok k0 =>
                  rw [hs] at h
                  have h2 : (if isHashable k0 then
                      build_index_from (dictInsert acc k0 item) rest id_field
                    else
                      .error (.typeError ("unhashable type: \x27" ++ pyTypeName k0 ++ "\x27"))) = .ok idx := h
                  by_cases hh : isHashable k0
                  · rw [if_pos hh] at h2
                    exact ih _ idx (keysOk_dictInsert hacc) h2
                  · rw [if_neg hh] at h2
                    cases h2

theorem build_index_keysOk {items : List Value} {id_field : String} {idx : Dict}
    (h : build_index items id_field = .ok idx) : KeysOk (dictKeys idx) :=
  build_index_from_keysOk items [] idx (by simp [KeysOk, dictKeys]) h

theorem build_index_nodup {items : List Value} {id_field : String} {idx : Dict}
    (h : build_index items id_field = .ok idx) : (dictKeys idx).Nodup :=
  (build_index_keysOk h).nodup

theorem getLast?_cons_ne_none {α : Type} (y : α) (ys : List α) :
    (y :: ys).getLast? ≠ none := by
  induction ys generalizing y with
  | nil => simp
  | cons z zs ih =>
      rw [List.getLast?_cons_cons]
      exact ih z

theorem optGetLast_cons {α : Type} (x : α) (l : List α) (d : α) :
    ((x :: l).getLast?).getD d = (l.getLast?).getD x := by
  cases l with
  | nil => rfl
  | cons y ys =>
      rw [List.getLast?_cons_cons]
      cases hgl : (y :: ys).getLast? with
      | none => exact absurd hgl (getLast?_cons_ne_none y ys)
      | some a => rfl

theorem build_index_from_lookup {id_field : String} :
    ∀ (items : List Value) (acc idx : Dict),
    build_index_from acc items id_field = .ok idx →
    ∀ k, dictLookup idx k =
      ((items.filter (matchesId id_field k)).getLast?).getD (dictLookup acc k) := by
  intro items
  induction items with
  | nil =>
      intro acc idx h k
      simp only [build_index_from, Except.ok.injEq] at h
      simp [← h]
  | cons item rest ih =>
      intro acc idx h k
      simp only [build_index_from] at h
      cases hc : pyContains item id_field with
      | error e => rw [hc] at h; cases h
      | ok b =>
          rw [hc] at h
          cases b with
          | false =>
              have hm : matchesId id_field k item = false := by
                unfold matchesId
                rw [hc]
              simp only [List.filter_cons, hm, Bool.false_eq_true, if_false]
              exact ih acc idx h k
          | true =>
              cases hs : pySubscript item id_field with
              | error e => rw [hs] at h; cases h
              | ok k0 =>
                  rw [hs] at h
                  have h2 : (if isHashable k0 then
                      build_index_from (dictInsert acc k0 item) rest id_field
                    else
                      .error (.typeError
                        ("unhashable type: \x27" ++ pyTypeName k0 ++ "\x27"))) = .ok idx := h
                  by_cases hh : isHashable k0
                  · rw [if_pos hh] at h2
                    have hm : matchesId id_field k item = pyEq k0 k := by
                      unfold matchesId
                      rw [hc, hs]
                    cases hkk : pyEq k0 k with
                    | true =>
                        rw [hkk] at hm
                        simp only [List.filter_cons, hm, if_true]
                        rw [optGetLast_cons, ih _ idx h2 k,
                          dictLookup_dictInsert_self acc k0 item k hkk]
                    | false =>
                        rw [hkk] at hm
                        simp only [List.filter_cons, hm, Bool.false_eq_true, if_false]
                        rw [ih _ idx h2 k,
                          dictLookup_dictInsert_other acc k0 item k hkk]
                  · rw [if_neg hh] at h2
                    cases h2

theorem build_index_lookup {items : List Value} {id_field : String} {idx : Dict}
    (h : build_index items id_field = .ok idx) :
    ∀ k, dictLookup idx k =
      ((items.filter (matchesId id_field k)).getLast?).getD Value.null :=
  build_index_from_lookup items [] idx h

theorem build_index_from_skip {id_field : String} {item : Value}
    (hitem : pyContains item id_field = .ok false) :
    ∀ (items1 items2 : List Value) (acc : Dict),
    build_index_from acc (items1 ++ item :: items2) id_field =
      build_index_from acc (items1 ++ items2) id_field := by
  intro items1
  induction items1 with
  | nil =>
      intro items2 acc
      simp only [List.nil_append]
      conv_lhs => rw [build_index_from]
      rw [hitem]
  | cons x xs ih =>
      intro items2 acc
      simp only [List.cons_append]
      cases hc : pyContains x id_field with
      | error e => simp only [build_index_from, hc]
      | ok b =>
          cases b with
          | false =>
              simp only [build_index_from, hc]
              exact ih items2 acc
          | true =>
              cases hs : pySubscript x id_field with
              | error e => simp only [build_index_from, hc, hs]
              | ok k0 =>
                  by_cases hh : isHashable k0
                  · simp only [build_index_from, hc, hs, hh, eq_self_iff_true, if_true]
                    exact ih items2 (dictInsert acc k0 x)
                  · rw [Bool.not_eq_true] at hh
                    simp only [build_index_from, hc, hs, hh, Bool.false_eq_true, if_false]

/-! ## Lemmas: sorting, `compute_diffs` plumbing -/

instance : IsTotal Value (fun a b => pyLe a b = true) := ⟨pyLe_total⟩

instance : IsTrans Value (fun a b => pyLe a b = true) :=
  ⟨fun _ _ _ => pyLe_trans⟩

theorem sortByStr_sorted (l : List Value) :
    List.Sorted (fun a b => pyLe a b = true) (sortByStr l) :=
  List.sorted_insertionSort _ l

theorem sortByStr_perm (l : List Value) : (sortByStr l).Perm l :=
  List.perm_insertionSort _ l

theorem compute_diffs_ok {before_list after_list : List Value} {id_field : String}
    {fields : List String} {a r m : List Value}
    (h : compute_diffs before_list after_list id_field fields = .ok (a, r, m)) :
    ∃ bi ai, build_index before_list id_field = .ok bi ∧
      build_index after_list id_field = .ok ai ∧
      a = added_items_of bi ai ∧ r = removed_items_of bi ai ∧
      m = modified_items_of bi ai id_field fields := by
  unfold compute_diffs at h
  cases hb : build_index before_list id_field with
  | error e => rw [hb] at h; cases h
  | ok bi =>
      rw [hb] at h
      cases ha : build_index after_list id_field with
      | error e => rw [ha] at h; cases h
      | ok ai =>
          rw [ha] at h
          simp only [Except.ok.injEq, Prod.mk.injEq] at h
          exact ⟨bi, ai, rfl, rfl, h.1.symm, h.2.1.symm, h.2.2.symm⟩

theorem mem_modified_items {bi ai : Dict} {id_field : String} {fields : List String}
    {e : Value} (he : e ∈ modified_items_of bi ai id_field fields) :
    ∃ k, k ∈ sortByStr (candidate_modified_ids bi ai) ∧
      (changed_fields_of fields (dictLookup bi k) (dictLookup ai k)).isEmpty = false ∧
      e = mkModifiedEntry id_field k (dictLookup bi k) (dictLookup ai k)
            (.obj (changed_fields_of fields (dictLookup bi k) (dictLookup ai k))) := by
  unfold modified_items_of at he
  rw [List.mem_filterMap] at he
  obtain ⟨k, hk, hfk⟩ := he
  by_cases hemp : (changed_fields_of fields (dictLookup bi k) (dictLookup ai k)).isEmpty
  · simp only [hemp, if_true] at hfk
    cases hfk
  · rw [Bool.not_eq_true] at hemp
    simp only [hemp, Bool.false_eq_true, if_false, Option.some.injEq] at hfk
    exact ⟨k, hk, hemp, hfk.symm⟩

theorem mem_candidates_left {bi ai : Dict} {k : Value}
    (h : k ∈ candidate_modified_ids bi ai) : k ∈ dictKeys bi :=
  (List.mem_filter.mp h).1

theorem mem_candidates_right {bi ai : Dict} {k : Value}
    (h : k ∈ candidate_modified_ids bi ai) : keyMem k (dictKeys ai) = true :=
  (List.mem_filter.mp h).2

/-- The Python dict literal for a Modified entry when `id_field` is the
literal `"before"`: the `"before"` record overwrites the identity. -/
theorem mkModifiedEntry_before (k b a cf : Value) :
    mkModifiedEntry "before" k b a cf =
      .obj [("before", b), ("after", a), ("changed_fields", cf)] := rfl

/-- Modified entry literal when `id_field = "after"`. -/
theorem mkModifiedEntry_after (k b a cf : Value) :
    mkModifiedEntry "after" k b a cf =
      .obj [("after", a), ("before", b), ("changed_fields", cf)] := rfl

/-- Modified entry literal when `id_field = "changed_fields"`. -/
theorem mkModifiedEntry_changed (k b a cf : Value) :
    mkModifiedEntry "changed_fields" k b a cf =
      .obj [("changed_fields", cf), ("before", b), ("after", a)] := rfl

/-! ## Lemmas: `changed_fields` -/

theorem recInsert_find_self (m : Record) (k : String) (v : Value) :
    (recInsert m k v).find? (fun p => p.1 == k) = some (k, v) := by
  unfold recInsert
  by_cases hany : m.any (fun p => p.1 == k)
  · rw [if_pos hany]
    induction m with
    | nil => simp at hany
    | cons q rest ih =>
        by_cases h : q.1 == k
        · have hk : q.1 = k := beq_iff_eq.mp h
          rw [List.map_cons, if_pos h]
          simp only [List.find?_cons, h]
          rw [hk]
        · simp only [List.any_cons, h, Bool.false_or] at hany
          rw [List.map_cons, if_neg h]
          rw [Bool.not_eq_true] at h
          simp only [List.find?_cons, h]
          exact ih hany
  · rw [if_neg hany]
    induction m with
    | nil => simp [List.find?_cons]
    | cons q rest ih =>
        simp only [List.any_cons, Bool.or_eq_true, not_or] at hany
        have hq : (q.1 == k) = false := by
          rw [← Bool.not_eq_true]
          exact hany.1
        rw [List.cons_append]
        simp only [List.find?_cons, hq]
        exact ih (by simpa using hany.2)

theorem recInsert_find_other (m : Record) (k : String) (v : Value) (k' : String)
    (hne : k' ≠ k) :
    (recInsert m k v).find? (fun p => p.1 == k') = m.find? (fun p => p.1 == k') := by
  unfold recInsert
  split
  · clear * - hne
    induction m with
    | nil => rfl
    | cons q rest ih =>
        rw [List.map_cons]
        by_cases h : q.1 == k
        · have hk : q.1 = k := beq_iff_eq.mp h
          have hnp : (q.1 == k') = false := by
            rw [hk]
            simp only [beq_eq_false_iff_ne, ne_eq]
            exact fun hh => hne hh.symm
          rw [if_pos h]
          simp only [List.find?_cons, hnp]
          exact ih
        · rw [if_neg h]
          by_cases h' : q.1 == k'
          · simp only [List.find?_cons, h']
          · rw [Bool.not_eq_true] at h'
            simp only [List.find?_cons, h']
            exact ih
  · clear * - hne
    induction m with
    | nil =>
        have hnp : ((k : String) == k') = false := by
          simp only [beq_eq_false_iff_ne, ne_eq]
          exact fun hh => hne hh.symm
        rw [List.nil_append]
        simp only [List.find?_cons, hnp]
    | cons q rest ih =>
        rw [List.cons_append]
        by_cases h : q.1 == k'
        · simp only [List.find?_cons, h]
        · rw [Bool.not_eq_true] at h
          simp only [List.find?_cons, h]
          exact ih

theorem recInsert_ne_nil (m : Record) (k : String) (v : Value) :
    recInsert m k v ≠ [] := by
  unfold recInsert
  split
  · next hany =>
    intro hm
    rw [List.map_eq_nil_iff] at hm
    rw [hm] at hany
    simp at hany
  · intro hm
    exact List.append_ne_nil_of_right_ne_nil m (by simp) hm

theorem changed_fields_from_find (b a : Value) (f : String) :
    ∀ (fields : List String) (acc : Record),
    (changed_fields_from acc fields b a).find? (fun p => p.1 == f) =
      if f ∈ fields ∧ (compare_field b a f).1 = true then
        some (f, .obj [("before", dictGet b f), ("after", dictGet a f)])
      else acc.find? (fun p => p.1 == f) := by
  intro fields
  induction fields with
  | nil =>
      intro acc
      simp [changed_fields_from]
  | cons g rest ih =>
      intro acc
      unfold changed_fields_from
      by_cases hg : (compare_field b a g).1 = true
      · simp only [hg, if_true]
        rw [ih]
        by_cases hfr : f ∈ rest ∧ (compare_field b a f).1 = true
        · rw [if_pos hfr, if_pos ⟨List.mem_cons_of_mem _ hfr.1, hfr.2⟩]
        · rw [if_neg hfr]
          by_cases hfg : f = g
          · subst hfg
            rw [if_pos ⟨List.mem_cons_self _ _, hg⟩]
            rw [recInsert_find_self]
            rfl
          · rw [recInsert_find_other _ _ _ _ hfg]
            rw [if_neg ?_]
            rintro ⟨hmem, hch⟩
            rcases List.mem_cons.mp hmem with rfl | hmem2
            · exact hfg rfl
            · exact hfr ⟨hmem2, hch⟩
      · rw [Bool.not_eq_true] at hg
        simp only [hg, Bool.false_eq_true, if_false]
        rw [ih]
        by_cases hfr : f ∈ rest ∧ (compare_field b a f).1 = true
        · rw [if_pos hfr, if_pos ⟨List.mem_cons_of_mem _ hfr.1, hfr.2⟩]
        · rw [if_neg hfr, if_neg ?_]
          rintro ⟨hmem, hch⟩
          rcases List.mem_cons.mp hmem with rfl | hmem2
          · rw [hch] at hg
            cases hg
          · exact hfr ⟨hmem2, hch⟩

theorem changed_fields_from_nil_iff (b a : Value) :
    ∀ (fields : List String) (acc : Record),
    changed_fields_from acc fields b a = [] ↔
      (acc = [] ∧ ∀ f ∈ fields, (compare_field b a f).1 = false) := by
  intro fields
  induction fields with
  | nil =>
      intro acc
      simp [changed_fields_from]
  | cons g rest ih =>
      intro acc
      unfold changed_fields_from
      by_cases hg : (compare_field b a g).1 = true
      · simp only [hg, if_true]
        rw [ih]
        constructor
        · rintro ⟨hnil, _⟩
          exact absurd hnil (recInsert_ne_nil _ _ _)
        · rintro ⟨_, hall⟩
          rw [hall g (List.mem_cons_self _ _)] at hg
          cases hg
      · rw [Bool.not_eq_true] at hg
        simp only [hg, Bool.false_eq_true, if_false]
        rw [ih]
        constructor
        · rintro ⟨hnil, hall⟩
          refine ⟨hnil, ?_⟩
          intro f hf
          rcases List.mem_cons.mp hf with rfl | hf2
          · exact hg
          · exact hall f hf2
        · rintro ⟨hnil, hall⟩
          exact ⟨hnil, fun f hf => hall f (List.mem_cons_of_mem _ hf)⟩

/-- The materialized Modified list is the entry constructor mapped over
the contributing ids. -/
theorem modified_items_of_eq (bi ai : Dict) (id_field : String) (fields : List String) :
    modified_items_of bi ai id_field fields =
      (modified_ids_of bi ai fields).map (fun k =>
        mkModifiedEntry id_field k (dictLookup bi k) (dictLookup ai k)
          (.obj (changed_fields_of fields (dictLookup bi k) (dictLookup ai k)))) := by
  unfold modified_items_of modified_ids_of
  generalize sortByStr (candidate_modified_ids bi ai) = l
  induction l with
  | nil => rfl
  | cons x xs ih =>
      rw [List.filterMap_cons, List.filter_cons]
      by_cases hx : (changed_fields_of fields (dictLookup bi x) (dictLookup ai x)).isEmpty
      · simp only [hx, if_true, Bool.not_true, Bool.false_eq_true, if_false]
        exact ih
      · rw [Bool.not_eq_true] at hx
        simp only [hx, Bool.false_eq_true, if_false, Bool.not_false, if_true, List.map_cons]
        rw [ih]

/-- `entry["before"]` of a Modified entry is the before record, for
every identity field (including the colliding reserved ones). -/
theorem mkModifiedEntry_get_before (id_field : String) (k b a cf : Value) :
    dictGet (mkModifiedEntry id_field k b a cf) "before" = b := by
  unfold mkModifiedEntry
  simp only [dictGet, recGetD]
  rw [recInsert_find_other _ _ _ _ (by decide),
    recInsert_find_other _ _ _ _ (by decide),
    recInsert_find_self]

theorem mem_added_ids {bi ai : Dict} {v : Value} :
    v ∈ added_ids bi ai ↔ v ∈ dictKeys ai ∧ keyMem v (dictKeys bi) = false := by
  unfold added_ids
  rw [List.mem_filter]
  simp [Bool.not_eq_true']

theorem mem_removed_ids {bi ai : Dict} {v : Value} :
    v ∈ removed_ids bi ai ↔ v ∈ dictKeys bi ∧ keyMem v (dictKeys ai) = false := by
  unfold removed_ids
  rw [List.mem_filter]
  simp [Bool.not_eq_true']

theorem mem_candidate_ids {bi ai : Dict} {v : Value} :
    v ∈ candidate_modified_ids bi ai ↔
      v ∈ dictKeys bi ∧ keyMem v (dictKeys ai) = true := by
  unfold candidate_modified_ids
  rw [List.mem_filter]

theorem mem_modified_ids_iff {bi ai : Dict} {fields : List String} {v : Value} :
    v ∈ modified_ids_of bi ai fields ↔
      v ∈ candidate_modified_ids bi ai ∧
      (changed_fields_of fields (dictLookup bi v) (dictLookup ai v)).isEmpty = false := by
  unfold modified_ids_of
  rw [List.mem_filter, (sortByStr_perm _).mem_iff]
  simp

theorem mem_unchanged_ids_iff {bi ai : Dict} {fields : List String} {v : Value} :
    v ∈ unchanged_ids_of bi ai fields ↔
      v ∈ candidate_modified_ids bi ai ∧
      (changed_fields_of fields (dictLookup bi v) (dictLookup ai v)).isEmpty = true := by
  unfold unchanged_ids_of
  rw [List.mem_filter, (sortByStr_perm _).mem_iff]

/-! ## Lemmas: order-independence of reconciliation (for C5) -/

theorem keyMem_perm {l1 l2 : List Value} (h : l1.Perm l2) (x : Value) :
    keyMem x l1 = keyMem x l2 := by
  rw [Bool.eq_iff_iff]
  simp only [keyMem, List.any_eq_true]
  constructor
  · rintro ⟨y, hy, hxy⟩
    exact ⟨y, h.mem_iff.mp hy, hxy⟩
  · rintro ⟨y, hy, hxy⟩
    exact ⟨y, h.mem_iff.mpr hy, hxy⟩

theorem dictKeys_indexPairs (items : List Value) (id_field : String) :
    dictKeys (indexPairs items id_field) = snapshotIds items id_field := by
  induction items with
  | nil => rfl
  | cons it rest ih =>
      unfold indexPairs snapshotIds at *
      rw [List.filterMap_cons, List.filterMap_cons]
      cases h : recordId id_field it with
      | none => simpa using ih
      | some k =>
          simp [dictKeys] at ih ⊢
          exact ih

theorem build_index_from_wellKeyed {id_field : String} :
    ∀ (items : List Value) (acc : Dict),
    (∀ it ∈ items, ∃ fs, it = Value.obj fs) →
    (∀ k ∈ snapshotIds items id_field, isHashable k = true) →
    List.Pairwise (fun x y => pyEq x y = false) (snapshotIds items id_field) →
    (∀ k ∈ snapshotIds items id_field, ∀ x ∈ dictKeys acc, pyEq x k = false) →
    build_index_from acc items id_field = .ok (acc ++ indexPairs items id_field) := by
  intro items
  induction items with
  | nil =>
      intro acc _ _ _ _
      simp [build_index_from, indexPairs]
  | cons it rest ih =>
      intro acc hobj hhash hdist hdisj
      obtain ⟨fs, rfl⟩ := hobj _ (List.mem_cons_self _ _)
      cases hfind : fs.find? (fun p => p.1 == id_field) with
      | none =>
          have hc : pyContains (.obj fs) id_field = .ok false := by
            simp only [pyContains, Except.ok.injEq]
            rw [List.any_eq_false]
            intro p hp
            have := List.find?_eq_none.mp hfind p hp
            simpa using this
          have hrid : recordId id_field (Value.obj fs) = none := by
            simp [recordId, hfind]
          have hsnap : snapshotIds (Value.obj fs :: rest) id_field =
              snapshotIds rest id_field := by
            simp [snapshotIds, List.filterMap_cons, hrid]
          rw [hsnap] at hhash hdist hdisj
          simp only [build_index_from, hc]
          rw [ih acc (fun x hx => hobj x (List.mem_cons_of_mem _ hx)) hhash hdist hdisj]
          unfold indexPairs
          rw [List.filterMap_cons, hrid]
          rfl
      | some q =>
          have hc : pyContains (.obj fs) id_field = .ok true := by
            simp only [pyContains, Except.ok.injEq]
            exact List.any_eq_true.mpr ⟨q, List.mem_of_find?_eq_some hfind,
              List.find?_some (p := fun x : String × Value => x.1 == id_field) hfind⟩
          have hs : pySubscript (.obj fs) id_field = .ok q.2 := by
            simp only [pySubscript, hfind]
          have hrid : recordId id_field (Value.obj fs) = some q.2 := by
            simp [recordId, hfind]
          have hsnap : snapshotIds (Value.obj fs :: rest) id_field =
              q.2 :: snapshotIds rest id_field := by
            simp [snapshotIds, List.filterMap_cons, hrid]
          rw [hsnap] at hhash hdist hdisj
          have hh : isHashable q.2 = true := hhash _ (List.mem_cons_self _ _)
          have hins : dictInsert acc q.2 (Value.obj fs) = acc ++ [(q.2, Value.obj fs)] := by
            unfold dictInsert
            rw [if_neg ?_]
            intro hany
            rw [List.any_eq_true] at hany
            obtain ⟨p, hp, hpk⟩ := hany
            have hfalse := hdisj _ (List.mem_cons_self _ _) p.1
              (List.mem_map.mpr ⟨p, hp, rfl⟩)
            rw [hfalse] at hpk
            cases hpk
          have hpw := List.pairwise_cons.mp hdist
          simp only [build_index_from, hc, hs, hh, eq_self_iff_true, if_true]
          rw [hins,
            ih (acc ++ [(q.2, Value.obj fs)])
              (fun x hx => hobj x (List.mem_cons_of_mem _ hx))
              (fun k hk => hhash k (List.mem_cons_of_mem _ hk))
              hpw.2
              ?_]
          · unfold indexPairs
            rw [List.filterMap_cons, hrid]
            simp [List.append_assoc]
          · intro k hk x hx
            unfold dictKeys at hx
            rw [List.map_append, List.mem_append] at hx
            rcases hx with hmem | hmem
            · exact hdisj k (List.mem_cons_of_mem _ hk) x hmem
            · simp only [List.map_cons, List.map_nil, List.mem_singleton] at hmem
              subst hmem
              exact hpw.1 k hk

theorem build_index_wellKeyed {items : List Value} {id_field : String}
    (hw : WellKeyed items id_field) :
    build_index items id_field = .ok (indexPairs items id_field) := by
  unfold build_index
  rw [build_index_from_wellKeyed items [] hw.1 hw.2.1 hw.2.2.1
    (by intro k _ x hx; simp [dictKeys] at hx)]
  rw [List.nil_append]

theorem dictLookup_perm :
    ∀ {m1 m2 : Dict}, m1.Perm m2 → KeysOk (dictKeys m1) →
    ∀ k, dictLookup m1 k = dictLookup m2 k := by
  intro m1 m2 hperm
  induction hperm with
  | nil => intro _ _; rfl
  | cons p hp ih =>
      intro hko k
      by_cases hpk : pyEq p.1 k
      · rw [dictLookup_cons_pos hpk, dictLookup_cons_pos hpk]
      · rw [Bool.not_eq_true] at hpk
        rw [dictLookup_cons_neg hpk, dictLookup_cons_neg hpk]
        have hko2 : KeysOk (dictKeys _) := (List.pairwise_cons.mp hko).2
        exact ih hko2 k
  | swap x y l =>
      intro hko k
      have hyx : pyEq y.1 x.1 = false :=
        (List.pairwise_cons.mp hko).1 x.1 (List.mem_cons_self _ _)
      by_cases hy : pyEq y.1 k
      · have hx : pyEq x.1 k = false := by
          cases hc : pyEq x.1 k
          · rfl
          · rw [pyEq_trans hy (pyEq_symm hc)] at hyx
            cases hyx
        rw [dictLookup_cons_pos hy, dictLookup_cons_neg hx, dictLookup_cons_pos hy]
      · rw [Bool.not_eq_true] at hy
        by_cases hx : pyEq x.1 k
        · rw [dictLookup_cons_neg hy, dictLookup_cons_pos hx, dictLookup_cons_pos hx]
        · rw [Bool.not_eq_true] at hx
          rw [dictLookup_cons_neg hy, dictLookup_cons_neg hx,
            dictLookup_cons_neg hx, dictLookup_cons_neg hy]
  | trans h12 h23 ih1 ih2 =>
      intro hko k
      rw [ih1 hko k]
      refine ih2 ?_ k
      exact (List.Perm.pairwise_iff (fun hab => pyEq_symm_false hab)
        (h12.map (fun p : Value × Value => p.1))).mp hko

theorem sortByStr_eq_of_perm {l1 l2 : List Value} (hperm : l1.Perm l2)
    (hdist : List.Pairwise (fun x y => pyStr x ≠ pyStr y) l1) :
    sortByStr l1 = sortByStr l2 := by
  have hsymm : ∀ {x y : Value}, pyStr x ≠ pyStr y → pyStr y ≠ pyStr x :=
    fun h => fun hh => h hh.symm
  have hp12 : (sortByStr l1).Perm (sortByStr l2) :=
    (sortByStr_perm l1).trans (hperm.trans (sortByStr_perm l2).symm)
  have hd1 : List.Pairwise (fun x y => pyStr x ≠ pyStr y) (sortByStr l1) :=
    (List.Perm.pairwise_iff hsymm (sortByStr_perm l1)).mpr hdist
  have hd2 : List.Pairwise (fun x y => pyStr x ≠ pyStr y) (sortByStr l2) :=
    (List.Perm.pairwise_iff hsymm hp12).mp hd1
  have hstrict1 := (sortByStr_sorted l1).and hd1
  have hstrict2 := (sortByStr_sorted l2).and hd2
  haveI : IsAntisymm Value (fun x y => pyLe x y = true ∧ pyStr x ≠ pyStr y) :=
    ⟨fun _ _ h1 h2 => absurd (pyStr_eq_of_pyLe_antisymm h1.1 h2.1) h1.2⟩
  exact List.eq_of_perm_of_sorted hp12 hstrict1 hstrict2

theorem WellKeyed_perm {items1 items2 : List Value} {id_field : String}
    (hperm : items1.Perm items2) (hw : WellKeyed items1 id_field) :
    WellKeyed items2 id_field := by
  have hids : (snapshotIds items1 id_field).Perm (snapshotIds items2 id_field) :=
    hperm.filterMap _
  refine ⟨?_, ?_, ?_, ?_⟩
  · intro it hit
    exact hw.1 it (hperm.mem_iff.mpr hit)
  · intro k hk
    exact hw.2.1 k (hids.mem_iff.mpr hk)
  · exact (List.Perm.pairwise_iff (fun hab => pyEq_symm_false hab) hids).mp hw.2.2.1
  · exact (List.Perm.pairwise_iff (fun h => fun hh => h hh.symm) hids).mp hw.2.2.2

/-- Reconciliation is invariant under permuting either snapshot,
provided both snapshots are well-keyed. -/
theorem compute_diffs_perm_invariant
    (id_field : String) (fields : List String) (b1 b2 a1 a2 : List Value)
    (hbp : b1.Perm b2) (hap : a1.Perm a2)
    (hwb : WellKeyed b1 id_field) (hwa : WellKeyed a1 id_field) :
    compute_diffs b1 a1 id_field fields = compute_diffs b2 a2 id_field fields := by
  have hwb2 := WellKeyed_perm hbp hwb
  have hwa2 := WellKeyed_perm hap hwa
  have hB1 := build_index_wellKeyed hwb
  have hB2 := build_index_wellKeyed hwb2
  have hA1 := build_index_wellKeyed hwa
  have hA2 := build_index_wellKeyed hwa2
  have hPb : (indexPairs b1 id_field).Perm (indexPairs b2 id_field) := hbp.filterMap _
  have hPa : (indexPairs a1 id_field).Perm (indexPairs a2 id_field) := hap.filterMap _
  have hkb : (dictKeys (indexPairs b1 id_field)).Perm (dictKeys (indexPairs b2 id_field)) :=
    hPb.map _
  have hka : (dictKeys (indexPairs a1 id_field)).Perm (dictKeys (indexPairs a2 id_field)) :=
    hPa.map _
  have hkob1 : KeysOk (dictKeys (indexPairs b1 id_field)) := by
    rw [dictKeys_indexPairs]
    exact hwb.2.2.1
  have hkoa1 : KeysOk (dictKeys (indexPairs a1 id_field)) := by
    rw [dictKeys_indexPairs]
    exact hwa.2.2.1
  have hadditems : added_items_of (indexPairs b1 id_field) (indexPairs a1 id_field) =
      added_items_of (indexPairs b2 id_field) (indexPairs a2 id_field) := by
    have haddperm : (added_ids (indexPairs b1 id_field) (indexPairs a1 id_field)).Perm
        (added_ids (indexPairs b2 id_field) (indexPairs a2 id_field)) := by
      unfold added_ids
      rw [List.filter_congr (fun k _ => by rw [keyMem_perm hkb k])]
      exact hka.filter _
    have hadddist : List.Pairwise (fun x y => pyStr x ≠ pyStr y)
        (added_ids (indexPairs b1 id_field) (indexPairs a1 id_field)) := by
      refine List.Pairwise.filter _ ?_
      rw [dictKeys_indexPairs]
      exact hwa.2.2.2
    unfold added_items_of
    rw [sortByStr_eq_of_perm haddperm hadddist]
    exact List.map_congr_left (fun k _ => dictLookup_perm hPa hkoa1 k)
  have hremitems : removed_items_of (indexPairs b1 id_field) (indexPairs a1 id_field) =
      removed_items_of (indexPairs b2 id_field) (indexPairs a2 id_field) := by
    have hremperm : (removed_ids (indexPairs b1 id_field) (indexPairs a1 id_field)).Perm
        (removed_ids (indexPairs b2 id_field) (indexPairs a2 id_field)) := by
      unfold removed_ids
      rw [List.filter_congr (fun k _ => by rw [keyMem_perm hka k])]
      exact hkb.filter _
    have hremdist : List.Pairwise (fun x y => pyStr x ≠ pyStr y)
        (removed_ids (indexPairs b1 id_field) (indexPairs a1 id_field)) := by
      refine List.Pairwise.filter _ ?_
      rw [dictKeys_indexPairs]
      exact hwb.2.2.2
    unfold removed_items_of
    rw [sortByStr_eq_of_perm hremperm hremdist]
    exact List.map_congr_left (fun k _ => dictLookup_perm hPb hkob1 k)
  have hcandsort : sortByStr (candidate_modified_ids (indexPairs b1 id_field)
        (indexPairs a1 id_field)) =
      sortByStr (candidate_modified_ids (indexPairs b2 id_field) (indexPairs a2 id_field)) := by
    have hcandperm : (candidate_modified_ids (indexPairs b1 id_field)
        (indexPairs a1 id_field)).Perm
        (candidate_modified_ids (indexPairs b2 id_field) (indexPairs a2 id_field)) := by
      unfold candidate_modified_ids
      rw [List.filter_congr (fun k _ => by rw [keyMem_perm hka k])]
      exact hkb.filter _
    have hcanddist : List.Pairwise (fun x y => pyStr x ≠ pyStr y)
        (candidate_modified_ids (indexPairs b1 id_field) (indexPairs a1 id_field)) := by
      refine List.Pairwise.filter _ ?_
      rw [dictKeys_indexPairs]
      exact hwb.2.2.2
    exact sortByStr_eq_of_perm hcandperm hcanddist
  have hmoditems : modified_items_of (indexPairs b1 id_field) (indexPairs a1 id_field)
        id_field fields =
      modified_items_of (indexPairs b2 id_field) (indexPairs a2 id_field)
        id_field fields := by
    unfold modified_items_of
    rw [hcandsort]
    refine List.filterMap_congr ?_
    intro k _
    rw [dictLookup_perm hPb hkob1 k, dictLookup_perm hPa hkoa1 k]
  unfold compute_diffs
  simp only [hB1, hB2, hA1, hA2]
  rw [hadditems, hremitems, hmoditems]

/-- `validate_request` on a well-formed `change_diff` request built by
`mkRequest` reduces to the identity-field / comparison-fields checks;
the snapshots are lists by construction. -/
theorem validate_mkRequest_unfold (idf : String) (fields : List String)
    (b a : List Value) :
    validate_request (mkRequest idf fields b a) =
      (if (pyStrip idf).isEmpty then
        .error (make_error_response "\x27id_field\x27 must be a non-empty string.")
      else if (fields.map Value.str).isEmpty then
        .error (make_error_response
          "\x27fields_to_compare\x27 must be a non-empty list of field names.")
      else
        match extractFields (fields.map Value.str) with
        | none =>
            .error (make_error_response
              "All entries in \x27fields_to_compare\x27 must be non-empty strings.")
        | some fs => .ok ⟨idf, fs, b, a⟩) := rfl

/-! ## Lemmas: validation -/

theorem extractFields_map_str :
    ∀ {fields fs : List String},
    extractFields (fields.map Value.str) = some fs → fs = fields := by
  intro fields
  induction fields with
  | nil =>
      intro fs h
      cases h
      rfl
  | cons s rest ih =>
      intro fs h
      simp only [List.map_cons, extractFields] at h
      by_cases hse : (pyStrip s).isEmpty
      · rw [if_pos hse] at h
        cases h
      · rw [if_neg hse] at h
        cases hrest : extractFields (rest.map Value.str) with
        | none =>
            rw [hrest] at h
            cases h
        | some fs2 =>
            rw [hrest] at h
            simp only [Option.map_some', Option.some.injEq] at h
            rw [← h, ih hrest]

theorem extractFields_none_iff :
    ∀ (l : List Value), extractFields l = none ↔ l.any badField = true := by
  intro l
  induction l with
  | nil => simp [extractFields]
  | cons v rest ih =>
      cases v with
      | str s =>
          by_cases hse : (pyStrip s).isEmpty
          · simp [extractFields, hse, badField]
          · rw [Bool.not_eq_true] at hse
            simp [extractFields, hse, badField, Option.map_eq_none', ih]
      | null => simp [extractFields, badField]
      | bool b => simp [extractFields, badField]
      | num n => simp [extractFields, badField]
      | arr xs => simp [extractFields, badField]
      | obj fs => simp [extractFields, badField]

theorem extractFields_some_no_bad {l : List Value} {fs : List String}
    (h : extractFields l = some fs) : l.any badField = false := by
  by_cases hany : l.any badField
  · rw [(extractFields_none_iff l).mpr hany] at h
    cases h
  · rw [Bool.not_eq_true] at hany
    exact hany

/-- The snapshot-shape tail of `validate_request` never returns an
error other than the snapshot-shape message. -/
theorem validate_tail_ne (s : String) (fs : List String) (bv av : Value) (msg : String)
    (hmsg : msg ≠ "\x27before\x27 and \x27after\x27 must both be lists.") :
    (match bv, av with
      | .arr bl, .arr al => Except.ok (⟨s, fs, bl, al⟩ : ValidatedRequest)
      | _, _ =>
          .error (make_error_response
            "\x27before\x27 and \x27after\x27 must both be lists.")) ≠
      .error (make_error_response msg) := by
  cases bv <;> cases av <;>
    simp [make_error_response] <;>
      exact fun h => hmsg h.symm

/-! ## Claims -/

/-- C1 counterexample: with before `[]` and after
`[\x7b"id":1\x7d, \x7b"id":true\x7d, \x7b"id":2\x7d]`, Python unifies the dict keys
`1` and `True` (keeping the first key object `1` but the later record),
so the materialized Added list is `[\x7b"id":true,...\x7d, \x7b"id":2,...\x7d]`,
whose own identity values have string casts `"True"`, `"2"` — not
ascending.  The order law fails on snapshots whose identities mix
`==`-unified values of different types. -/
theorem C1_counterexample :
    compute_diffs [] [recTid1, recTidTrue, recTid2] "id" ["n"] =
      .ok ([recTidTrue, recTid2], [], []) ∧
    ¬ List.Pairwise (fun e1 e2 =>
        pyLe (dictGet e1 "id") (dictGet e2 "id") = true) [recTidTrue, recTid2] :=
  ⟨by decide, by decide⟩

/-- C1 (amended): for every pair of snapshots that `compute_diffs`
indexes successfully and whose identity values do not mix
`==`-unified-but-distinct values (`NoCoercedIds`, e.g. no `1` alongside
`True`), the materialized Added, Removed, and Modified lists are each
sorted ascending by the string cast of the identity value
(`pyLe e1 e2` is `str(id(e1)) <= str(id(e2))`); for Added/Removed the
identity is the entry's own `id_field` value, for Modified it is the
`id_field` value of the entry's before record.  The inputs are
universally quantified, so the ordering is independent of the input
iteration order. -/
theorem C1_order_law (before_list after_list : List Value) (id_field : String)
    (fields : List String) (a r m : List Value)
    (hnc : NoCoercedIds (before_list ++ after_list) id_field)
    (h : compute_diffs before_list after_list id_field fields = .ok (a, r, m)) :
    List.Pairwise (fun e1 e2 =>
      pyLe (dictGet e1 id_field) (dictGet e2 id_field) = true) a ∧
    List.Pairwise (fun e1 e2 =>
      pyLe (dictGet e1 id_field) (dictGet e2 id_field) = true) r ∧
    List.Pairwise (fun e1 e2 =>
      pyLe (dictGet (dictGet e1 "before") id_field)
        (dictGet (dictGet e2 "before") id_field) = true) m := by
  have hncb : NoCoercedIds before_list id_field := NoCoercedIds_append_left hnc
  have hnca : NoCoercedIds after_list id_field := NoCoercedIds_append_right hnc
  obtain ⟨bi, ai, hb, ha, ha2, hr2, hm2⟩ := compute_diffs_ok h
  subst ha2
  subst hr2
  subst hm2
  refine ⟨?_, ?_, ?_⟩
  · unfold added_items_of
    rw [List.pairwise_map]
    refine List.Pairwise.imp_of_mem ?_ (sortByStr_sorted (added_ids bi ai))
    intro x y hx hy hle
    have hxk : x ∈ dictKeys ai :=
      (List.mem_filter.mp ((sortByStr_perm _).mem_iff.mp hx)).1
    have hyk : y ∈ dictKeys ai :=
      (List.mem_filter.mp ((sortByStr_perm _).mem_iff.mp hy)).1
    rw [build_index_exact_lookup ha hnca hxk, build_index_exact_lookup ha hnca hyk]
    exact hle
  · unfold removed_items_of
    rw [List.pairwise_map]
    refine List.Pairwise.imp_of_mem ?_ (sortByStr_sorted (removed_ids bi ai))
    intro x y hx hy hle
    have hxk : x ∈ dictKeys bi :=
      (List.mem_filter.mp ((sortByStr_perm _).mem_iff.mp hx)).1
    have hyk : y ∈ dictKeys bi :=
      (List.mem_filter.mp ((sortByStr_perm _).mem_iff.mp hy)).1
    rw [build_index_exact_lookup hb hncb hxk, build_index_exact_lookup hb hncb hyk]
    exact hle
  · rw [modified_items_of_eq, List.pairwise_map]
    have hp : List.Pairwise (fun x y => pyLe x y = true)
        (modified_ids_of bi ai fields) :=
      List.Pairwise.filter _ (sortByStr_sorted _)
    refine List.Pairwise.imp_of_mem ?_ hp
    intro x y hx hy hle
    have hxk : x ∈ dictKeys bi :=
      mem_candidates_left
        ((sortByStr_perm _).mem_iff.mp (List.mem_of_mem_filter hx))
    have hyk : y ∈ dictKeys bi :=
      mem_candidates_left
        ((sortByStr_perm _).mem_iff.mp (List.mem_of_mem_filter hy))
    rw [mkModifiedEntry_get_before, mkModifiedEntry_get_before]
    rw [build_index_exact_lookup hb hncb hxk, build_index_exact_lookup hb hncb hyk]
    exact hle

/-- Witness for the amended C1 at the concrete scenario of C2
(coercion-free ids 1, 2, 2, 3). -/
theorem C1_order_law_witness :
    (NoCoercedIds ([recAlice, recBob] ++ [recBobby, recCara]) "id" ∧
    compute_diffs [recAlice, recBob] [recBobby, recCara] "id" ["name"] =
      .ok ([recCara], [recAlice],
        [Value.obj [("id", .num 2), ("before", recBob), ("after", recBobby),
          ("changed_fields",
            .obj [("name", .obj [("before", .str "Bob"), ("after", .str "Bobby")])])]])) ∧
    (List.Pairwise (fun e1 e2 =>
      pyLe (dictGet e1 "id") (dictGet e2 "id") = true) [recCara] ∧
    List.Pairwise (fun e1 e2 =>
      pyLe (dictGet e1 "id") (dictGet e2 "id") = true) [recAlice] ∧
    List.Pairwise (fun e1 e2 =>
      pyLe (dictGet (dictGet e1 "before") "id")
        (dictGet (dictGet e2 "before") "id") = true)
      [Value.obj [("id", .num 2), ("before", recBob), ("after", recBobby),
        ("changed_fields",
          .obj [("name", .obj [("before", .str "Bob"), ("after", .str "Bobby")])])]]) :=
  ⟨⟨by decide, by decide⟩,
   C1_order_law [recAlice, recBob] [recBobby, recCara] "id" ["name"] _ _ _
     (by decide) (by decide)⟩

/-- C2: on before `[\x7b"id":1,"name":"Alice"\x7d, \x7b"id":2,"name":"Bob"\x7d]`,
after `[\x7b"id":2,"name":"Bobby"\x7d, \x7b"id":3,"name":"Cara"\x7d]`, with
`id_field="id"` and `fields_to_compare=["name"]`, `compute_diffs` returns
Added `[Cara]`, Removed `[Alice]`, and the single Modified entry for id 2
with its before/after records and `changed_fields.name = \x7bbefore: "Bob",
after: "Bobby"\x7d`. -/
theorem C2_concrete_scenario :
    compute_diffs [recAlice, recBob] [recBobby, recCara] "id" ["name"] =
      .ok ([recCara], [recAlice],
        [Value.obj [("id", .num 2), ("before", recBob), ("after", recBobby),
          ("changed_fields",
            .obj [("name", .obj [("before", .str "Bob"), ("after", .str "Bobby")])])]]) := by
  decide

/-- C9: the request `reqUnhashable` (a record whose identity value is
the array `[1]`) passes every validation check, yet `compute_diffs`
raises `TypeError: unhashable type: list` instead of returning a Diff
Result, and at the transport boundary the server answers it as an
`Internal error` response: the engine is not total over the documented
input domain. -/
theorem C9_unhashable_identity_raises :
    validate_request reqUnhashable = .ok ⟨"id", ["name"], [recUnhashable], []⟩ ∧
    compute_diffs [recUnhashable] [] "id" ["name"] =
      .error (.typeError "unhashable type: \x27list\x27") ∧
    server_step reqUnhashable =
      serialize_response
        (make_error_response "Internal error: unhashable type: \x27list\x27") := by
  refine ⟨by decide, by decide, by decide⟩

/-- C10: when `id_field` is one of the reserved keys `"before"`,
`"after"`, `"changed_fields"`, every Modified entry is a dict literal in
which the identity binding collides with the like-named component: the
entry carries only the three component keys (not four), and looking up
`id_field` in it yields a mapping — one of the components — rather than
the identity value, so the response no longer carries both. -/
theorem C10_reserved_id_field_collision
    (before_list after_list : List Value) (id_field : String)
    (fields : List String) (a r m : List Value)
    (hidf : id_field = "before" ∨ id_field = "after" ∨ id_field = "changed_fields")
    (h : compute_diffs before_list after_list id_field fields = .ok (a, r, m)) :
    ∀ e ∈ m, ∃ fs : Record, e = .obj fs ∧
      (fs.map Prod.fst).Perm ["before", "after", "changed_fields"] ∧
      ∃ comp : Record, recGetD fs id_field .null = .obj comp := by
  intro e he
  obtain ⟨bi, ai, hb, ha, _, _, hm⟩ := compute_diffs_ok h
  rw [hm] at he
  obtain ⟨k, hk, hne, hee⟩ := mem_modified_items he
  have hkc : k ∈ candidate_modified_ids bi ai := (sortByStr_perm _).mem_iff.mp hk
  have hkb : k ∈ dictKeys bi := mem_candidates_left hkc
  have hka : keyMem k (dictKeys ai) = true := mem_candidates_right hkc
  obtain ⟨pb, hpb, _, hlb⟩ := dictLookup_mem (keyMem_of_mem hkb)
  obtain ⟨pa, hpa, _, hla⟩ := dictLookup_mem hka
  obtain ⟨⟨kb2, hbs, _⟩, _⟩ := build_index_good hb pb hpb
  obtain ⟨⟨ka2, has, _⟩, _⟩ := build_index_good ha pa hpa
  obtain ⟨bfs0, hbfs0⟩ := pySubscript_ok_obj hbs
  obtain ⟨afs0, hafs0⟩ := pySubscript_ok_obj has
  have hbfs : dictLookup bi k = .obj bfs0 := by rw [hlb, hbfs0]
  have hafs : dictLookup ai k = .obj afs0 := by rw [hla, hafs0]
  rcases hidf with rfl | rfl | rfl
  · rw [mkModifiedEntry_before] at hee
    exact ⟨_, hee, List.Perm.refl _, bfs0, hbfs⟩
  · rw [mkModifiedEntry_after] at hee
    exact ⟨_, hee, List.Perm.swap "before" "after" ["changed_fields"], afs0, hafs⟩
  · rw [mkModifiedEntry_changed] at hee
    exact ⟨_, hee, @List.perm_append_comm String ["changed_fields"] ["before", "after"],
      changed_fields_of fields (dictLookup bi k) (dictLookup ai k), rfl⟩

/-- C3: for an identity `k` present in both indexes, a tracked field
counts as changed exactly when the before and after values differ under
structural inequality (`.get` returns the null value for a missing
field, so a missing side compares as null); `changed_fields` has an
entry for `f` — carrying exactly the before/after pair — iff `f` is
tracked and changed; the candidate contributes a Modified entry iff
some tracked field changed; and a candidate is never in Added or
Removed. -/
theorem C3_changed_field_semantics
    (before_list after_list : List Value) (id_field : String) (fields : List String)
    (bi ai : Dict)
    (hb : build_index before_list id_field = .ok bi)
    (ha : build_index after_list id_field = .ok ai)
    (k b a : Value) (cf : Record)
    (hk : k ∈ candidate_modified_ids bi ai)
    (hbd : b = dictLookup bi k) (had : a = dictLookup ai k)
    (hcf : cf = changed_fields_of fields b a) :
    (∀ f, (compare_field b a f).1 = true ↔ dictGet b f ≠ dictGet a f) ∧
    (∀ f, cf.find? (fun p => p.1 == f) =
      if f ∈ fields ∧ dictGet b f ≠ dictGet a f then
        some (f, .obj [("before", dictGet b f), ("after", dictGet a f)])
      else none) ∧
    (k ∈ modified_ids_of bi ai fields ↔ ∃ f ∈ fields, dictGet b f ≠ dictGet a f) ∧
    (k ∉ added_ids bi ai ∧ k ∉ removed_ids bi ai) := by
  have hchanged : ∀ f, (compare_field b a f).1 = true ↔ dictGet b f ≠ dictGet a f := by
    intro f
    unfold compare_field
    exact bne_iff_ne
  refine ⟨hchanged, ?_, ?_, ?_⟩
  · intro f
    rw [hcf]
    unfold changed_fields_of
    rw [changed_fields_from_find]
    rw [if_congr (iff_of_eq (congrArg (f ∈ fields ∧ ·)
      (propext (hchanged f)))) rfl rfl]
    rfl
  · unfold modified_ids_of
    rw [List.mem_filter]
    have hks : k ∈ sortByStr (candidate_modified_ids bi ai) :=
      (sortByStr_perm _).mem_iff.mpr hk
    rw [← hbd, ← had]
    constructor
    · rintro ⟨_, hne⟩
      rw [Bool.not_eq_eq_eq_not, Bool.not_true, List.isEmpty_eq_false] at hne
      by_contra hno
      push_neg at hno
      apply hne
      unfold changed_fields_of
      rw [changed_fields_from_nil_iff]
      refine ⟨rfl, ?_⟩
      intro f hf
      rw [Bool.eq_false_iff]
      intro hc
      exact ((hchanged f).mp hc) (hno f hf)
    · rintro ⟨f, hf, hne⟩
      refine ⟨hks, ?_⟩
      rw [Bool.not_eq_eq_eq_not, Bool.not_true, List.isEmpty_eq_false]
      unfold changed_fields_of
      rw [Ne, changed_fields_from_nil_iff]
      rintro ⟨_, hall⟩
      have hfa := hall f hf
      rw [Bool.eq_false_iff] at hfa
      exact hfa ((hchanged f).mpr hne)
  · constructor
    · intro hadd
      have hnb := (List.mem_filter.mp hadd).2
      have hkb : k ∈ dictKeys bi := mem_candidates_left hk
      rw [Bool.not_eq_true', keyMem_of_mem hkb] at hnb
      cases hnb
    · intro hrem
      have hnb := (List.mem_filter.mp hrem).2
      have hka : keyMem k (dictKeys ai) = true := mem_candidates_right hk
      rw [Bool.not_eq_true', hka] at hnb
      cases hnb

/-- Witness for C3 at before `[recBob]`, after `[recBobby]` (identity
2, tracked field `name` changed). -/
theorem C3_changed_field_semantics_witness :
    (build_index [recBob] "id" = .ok [(.num 2, recBob)] ∧
      build_index [recBobby] "id" = .ok [(.num 2, recBobby)] ∧
      Value.num 2 ∈ candidate_modified_ids [(.num 2, recBob)] [(.num 2, recBobby)] ∧
      recBob = dictLookup [(Value.num 2, recBob)] (.num 2) ∧
      recBobby = dictLookup [(Value.num 2, recBobby)] (.num 2) ∧
      changed_fields_of ["name"] recBob recBobby =
        [("name", .obj [("before", .str "Bob"), ("after", .str "Bobby")])]) ∧
    ((∀ f, (compare_field recBob recBobby f).1 = true ↔
        dictGet recBob f ≠ dictGet recBobby f) ∧
    (∀ f, ([("name", Value.obj [("before", .str "Bob"), ("after", .str "Bobby")])]
        : Record).find? (fun p => p.1 == f) =
      if f ∈ ["name"] ∧ dictGet recBob f ≠ dictGet recBobby f then
        some (f, .obj [("before", dictGet recBob f), ("after", dictGet recBobby f)])
      else none) ∧
    (Value.num 2 ∈ modified_ids_of [(.num 2, recBob)] [(.num 2, recBobby)] ["name"] ↔
      ∃ f ∈ ["name"], dictGet recBob f ≠ dictGet recBobby f) ∧
    (Value.num 2 ∉ added_ids [(.num 2, recBob)] [(.num 2, recBobby)] ∧
      Value.num 2 ∉ removed_ids [(.num 2, recBob)] [(.num 2, recBobby)])) :=
  ⟨⟨by decide, by decide, by decide, by decide, by decide, by decide⟩,
   C3_changed_field_semantics [recBob] [recBobby] "id" ["name"]
     [(.num 2, recBob)] [(.num 2, recBobby)] (by decide) (by decide)
     (.num 2) recBob recBobby
     [("name", .obj [("before", .str "Bob"), ("after", .str "Bobby")])]
     (by decide) (by decide) (by decide) (by decide)⟩

/-- C4: every identity value present in the before index or the after
index lands (under Python `==` membership, the membership the engine's
set algebra uses) in exactly one of the four buckets Added / Removed /
Modified-with-changes / unchanged-omitted (the buckets cover and are
pairwise disjoint), and each output entry's identity lies in its own
bucket, so no identity appears in more than one of the Added, Removed,
and Modified lists of `compute_diffs`. -/
theorem C4_partition (before_list after_list : List Value) (id_field : String)
    (fields : List String) (a r m : List Value) (bi ai : Dict)
    (h : compute_diffs before_list after_list id_field fields = .ok (a, r, m))
    (hb : build_index before_list id_field = .ok bi)
    (ha : build_index after_list id_field = .ok ai)
    (v : Value) (hv : v ∈ dictKeys bi ∨ v ∈ dictKeys ai) :
    (keyMem v (added_ids bi ai) = true ∨ keyMem v (removed_ids bi ai) = true ∨
      keyMem v (modified_ids_of bi ai fields) = true ∨
      keyMem v (unchanged_ids_of bi ai fields) = true) ∧
    ¬(keyMem v (added_ids bi ai) = true ∧ keyMem v (removed_ids bi ai) = true) ∧
    ¬(keyMem v (added_ids bi ai) = true ∧
      keyMem v (modified_ids_of bi ai fields) = true) ∧
    ¬(keyMem v (added_ids bi ai) = true ∧
      keyMem v (unchanged_ids_of bi ai fields) = true) ∧
    ¬(keyMem v (removed_ids bi ai) = true ∧
      keyMem v (modified_ids_of bi ai fields) = true) ∧
    ¬(keyMem v (removed_ids bi ai) = true ∧
      keyMem v (unchanged_ids_of bi ai fields) = true) ∧
    ¬(keyMem v (modified_ids_of bi ai fields) = true ∧
      keyMem v (unchanged_ids_of bi ai fields) = true) ∧
    (∀ e ∈ a, keyMem (dictGet e id_field) (added_ids bi ai) = true) ∧
    (∀ e ∈ r, keyMem (dictGet e id_field) (removed_ids bi ai) = true) ∧
    (∀ e ∈ m, keyMem (dictGet (dictGet e "before") id_field)
        (modified_ids_of bi ai fields) = true) := by
  obtain ⟨bi2, ai2, hb2, ha2, hae, hre, hme⟩ := compute_diffs_ok h
  rw [hb] at hb2
  rw [ha] at ha2
  injection hb2 with hb2
  injection ha2 with ha2
  subst hb2
  subst ha2
  have hkob : KeysOk (dictKeys bi) := build_index_keysOk hb
  have hmem : ∀ {x : Value}, keyMem x (added_ids bi ai) = true →
      ∃ y, y ∈ dictKeys ai ∧ keyMem y (dictKeys bi) = false ∧ pyEq y x = true := by
    intro x hx
    obtain ⟨y, hy, hpe⟩ := List.any_eq_true.mp hx
    obtain ⟨hy1, hy2⟩ := mem_added_ids.mp hy
    exact ⟨y, hy1, hy2, hpe⟩
  have hmemr : ∀ {x : Value}, keyMem x (removed_ids bi ai) = true →
      ∃ y, y ∈ dictKeys bi ∧ keyMem y (dictKeys ai) = false ∧ pyEq y x = true := by
    intro x hx
    obtain ⟨y, hy, hpe⟩ := List.any_eq_true.mp hx
    obtain ⟨hy1, hy2⟩ := mem_removed_ids.mp hy
    exact ⟨y, hy1, hy2, hpe⟩
  have hmemm : ∀ {x : Value}, keyMem x (modified_ids_of bi ai fields) = true →
      ∃ y, y ∈ modified_ids_of bi ai fields ∧ pyEq y x = true := by
    intro x hx
    obtain ⟨y, hy, hpe⟩ := List.any_eq_true.mp hx
    exact ⟨y, hy, hpe⟩
  have hmemu : ∀ {x : Value}, keyMem x (unchanged_ids_of bi ai fields) = true →
      ∃ y, y ∈ unchanged_ids_of bi ai fields ∧ pyEq y x = true := by
    intro x hx
    obtain ⟨y, hy, hpe⟩ := List.any_eq_true.mp hx
    exact ⟨y, hy, hpe⟩
  refine ⟨?_, ?_, ?_, ?_, ?_, ?_, ?_, ?_, ?_, ?_⟩
  · have hcand : ∀ y ∈ candidate_modified_ids bi ai,
        keyMem v (modified_ids_of bi ai fields) = true ∨
        keyMem v (unchanged_ids_of bi ai fields) = true →
        True := fun _ _ _ => trivial
    clear hcand
    have hbucket : ∀ y, y ∈ candidate_modified_ids bi ai → pyEq y v = true →
        keyMem v (modified_ids_of bi ai fields) = true ∨
        keyMem v (unchanged_ids_of bi ai fields) = true := by
      intro y hy hpe
      by_cases hch : (changed_fields_of fields (dictLookup bi y)
          (dictLookup ai y)).isEmpty
      · exact Or.inr (List.any_eq_true.mpr
          ⟨y, mem_unchanged_ids_iff.mpr ⟨hy, hch⟩, hpe⟩)
      · rw [Bool.not_eq_true] at hch
        exact Or.inl (List.any_eq_true.mpr
          ⟨y, mem_modified_ids_iff.mpr ⟨hy, hch⟩, hpe⟩)
    by_cases hvb : v ∈ dictKeys bi
    · by_cases hva : keyMem v (dictKeys ai) = true
      · have hc : v ∈ candidate_modified_ids bi ai := mem_candidate_ids.mpr ⟨hvb, hva⟩
        rcases hbucket v hc (pyEq_refl v) with hbk | hbk
        · exact Or.inr (Or.inr (Or.inl hbk))
        · exact Or.inr (Or.inr (Or.inr hbk))
      · rw [Bool.not_eq_true] at hva
        exact Or.inr (Or.inl (keyMem_of_mem (mem_removed_ids.mpr ⟨hvb, hva⟩)))
    · have hva : v ∈ dictKeys ai := by
        rcases hv with hvb2 | hva
        · exact absurd hvb2 hvb
        · exact hva
      by_cases hkb : keyMem v (dictKeys bi) = true
      · obtain ⟨y, hy, hpe⟩ := List.any_eq_true.mp hkb
        have hyc : y ∈ candidate_modified_ids bi ai := by
          refine mem_candidate_ids.mpr ⟨hy, ?_⟩
          exact List.any_eq_true.mpr ⟨v, hva, pyEq_symm hpe⟩
        rcases hbucket y hyc hpe with hbk | hbk
        · exact Or.inr (Or.inr (Or.inl hbk))
        · exact Or.inr (Or.inr (Or.inr hbk))
      · rw [Bool.not_eq_true] at hkb
        exact Or.inl (keyMem_of_mem (mem_added_ids.mpr ⟨hva, hkb⟩))
  · rintro ⟨h1, h2⟩
    obtain ⟨x, hxa, hxnb, hxv⟩ := hmem h1
    obtain ⟨y, hyb, _, hyv⟩ := hmemr h2
    have hyx : pyEq y x = true := pyEq_trans hyv (pyEq_symm hxv)
    have hcontra : keyMem x (dictKeys bi) = true := List.any_eq_true.mpr ⟨y, hyb, hyx⟩
    rw [hxnb] at hcontra
    cases hcontra
  · rintro ⟨h1, h2⟩
    obtain ⟨x, hxa, hxnb, hxv⟩ := hmem h1
    obtain ⟨y, hym, hyv⟩ := hmemm h2
    have hyb : y ∈ dictKeys bi :=
      (mem_candidate_ids.mp (mem_modified_ids_iff.mp hym).1).1
    have hyx : pyEq y x = true := pyEq_trans hyv (pyEq_symm hxv)
    have hcontra : keyMem x (dictKeys bi) = true := List.any_eq_true.mpr ⟨y, hyb, hyx⟩
    rw [hxnb] at hcontra
    cases hcontra
  · rintro ⟨h1, h2⟩
    obtain ⟨x, hxa, hxnb, hxv⟩ := hmem h1
    obtain ⟨y, hym, hyv⟩ := hmemu h2
    have hyb : y ∈ dictKeys bi :=
      (mem_candidate_ids.mp (mem_unchanged_ids_iff.mp hym).1).1
    have hyx : pyEq y x = true := pyEq_trans hyv (pyEq_symm hxv)
    have hcontra : keyMem x (dictKeys bi) = true := List.any_eq_true.mpr ⟨y, hyb, hyx⟩
    rw [hxnb] at hcontra
    cases hcontra
  · rintro ⟨h1, h2⟩
    obtain ⟨x, hxb, hxna, hxv⟩ := hmemr h1
    obtain ⟨y, hym, hyv⟩ := hmemm h2
    obtain ⟨z, hza, hzy⟩ := List.any_eq_true.mp
      (mem_candidate_ids.mp (mem_modified_ids_iff.mp hym).1).2
    have hzx : pyEq z x = true :=
      pyEq_trans hzy (pyEq_trans hyv (pyEq_symm hxv))
    have hcontra : keyMem x (dictKeys ai) = true := List.any_eq_true.mpr ⟨z, hza, hzx⟩
    rw [hxna] at hcontra
    cases hcontra
  · rintro ⟨h1, h2⟩
    obtain ⟨x, hxb, hxna, hxv⟩ := hmemr h1
    obtain ⟨y, hym, hyv⟩ := hmemu h2
    obtain ⟨z, hza, hzy⟩ := List.any_eq_true.mp
      (mem_candidate_ids.mp (mem_unchanged_ids_iff.mp hym).1).2
    have hzx : pyEq z x = true :=
      pyEq_trans hzy (pyEq_trans hyv (pyEq_symm hxv))
    have hcontra : keyMem x (dictKeys ai) = true := List.any_eq_true.mpr ⟨z, hza, hzx⟩
    rw [hxna] at hcontra
    cases hcontra
  · rintro ⟨h1, h2⟩
    obtain ⟨x, hxm, hxv⟩ := hmemm h1
    obtain ⟨y, hym, hyv⟩ := hmemu h2
    have hxb : x ∈ dictKeys bi :=
      (mem_candidate_ids.mp (mem_modified_ids_iff.mp hxm).1).1
    have hyb : y ∈ dictKeys bi :=
      (mem_candidate_ids.mp (mem_unchanged_ids_iff.mp hym).1).1
    have hxy : x = y := hkob.eq_of_pyEq hxb hyb (pyEq_trans hxv (pyEq_symm hyv))
    have hne := (mem_modified_ids_iff.mp hxm).2
    have heq := (mem_unchanged_ids_iff.mp hym).2
    rw [hxy, heq] at hne
    cases hne
  · intro e he
    rw [hae] at he
    obtain ⟨k, hk, hek⟩ := List.mem_map.mp he
    have hkk : k ∈ added_ids bi ai := (sortByStr_perm _).mem_iff.mp hk
    have hka : k ∈ dictKeys ai := (mem_added_ids.mp hkk).1
    obtain ⟨p, hp, hpe, hlk⟩ := dictLookup_mem (keyMem_of_mem hka)
    obtain ⟨⟨k2, hsub, hke⟩, _⟩ := build_index_good ha p hp
    have hg : dictGet (dictLookup ai k) id_field = k2 := by
      rw [hlk]
      exact dictGet_of_pySubscript hsub
    rw [← hek, hg]
    exact List.any_eq_true.mpr ⟨k, hkk, pyEq_symm (pyEq_trans hke hpe)⟩
  · intro e he
    rw [hre] at he
    obtain ⟨k, hk, hek⟩ := List.mem_map.mp he
    have hkk : k ∈ removed_ids bi ai := (sortByStr_perm _).mem_iff.mp hk
    have hkb : k ∈ dictKeys bi := (mem_removed_ids.mp hkk).1
    obtain ⟨p, hp, hpe, hlk⟩ := dictLookup_mem (keyMem_of_mem hkb)
    obtain ⟨⟨k2, hsub, hke⟩, _⟩ := build_index_good hb p hp
    have hg : dictGet (dictLookup bi k) id_field = k2 := by
      rw [hlk]
      exact dictGet_of_pySubscript hsub
    rw [← hek, hg]
    exact List.any_eq_true.mpr ⟨k, hkk, pyEq_symm (pyEq_trans hke hpe)⟩
  · intro e he
    rw [hme, modified_items_of_eq] at he
    obtain ⟨k, hk, hek⟩ := List.mem_map.mp he
    have hkb : k ∈ dictKeys bi :=
      (mem_candidate_ids.mp (mem_modified_ids_iff.mp hk).1).1
    obtain ⟨p, hp, hpe, hlk⟩ := dictLookup_mem (keyMem_of_mem hkb)
    obtain ⟨⟨k2, hsub, hke⟩, _⟩ := build_index_good hb p hp
    have hg : dictGet (dictLookup bi k) id_field = k2 := by
      rw [hlk]
      exact dictGet_of_pySubscript hsub
    rw [← hek, mkModifiedEntry_get_before, hg]
    exact List.any_eq_true.mpr ⟨k, hk, pyEq_symm (pyEq_trans hke hpe)⟩

/-- Witness for C4 at the concrete scenario of C2, at identity 1. -/
theorem C4_partition_witness :
    (compute_diffs [recAlice, recBob] [recBobby, recCara] "id" ["name"] =
      .ok ([recCara], [recAlice],
        [Value.obj [("id", .num 2), ("before", recBob), ("after", recBobby),
          ("changed_fields",
            .obj [("name", .obj [("before", .str "Bob"), ("after", .str "Bobby")])])]]) ∧
      build_index [recAlice, recBob] "id" = .ok [(.num 1, recAlice), (.num 2, recBob)] ∧
      build_index [recBobby, recCara] "id" = .ok [(.num 2, recBobby), (.num 3, recCara)] ∧
      (Value.num 1 ∈ dictKeys [(Value.num 1, recAlice), (Value.num 2, recBob)] ∨
        Value.num 1 ∈ dictKeys [(Value.num 2, recBobby), (Value.num 3, recCara)])) ∧
    ((keyMem (Value.num 1) (added_ids [(Value.num 1, recAlice), (Value.num 2, recBob)]
        [(Value.num 2, recBobby), (Value.num 3, recCara)]) = true ∨
      keyMem (Value.num 1) (removed_ids [(Value.num 1, recAlice), (Value.num 2, recBob)]
        [(Value.num 2, recBobby), (Value.num 3, recCara)]) = true ∨
      keyMem (Value.num 1) (modified_ids_of [(Value.num 1, recAlice), (Value.num 2, recBob)]
        [(Value.num 2, recBobby), (Value.num 3, recCara)] ["name"]) = true ∨
      keyMem (Value.num 1) (unchanged_ids_of [(Value.num 1, recAlice), (Value.num 2, recBob)]
        [(Value.num 2, recBobby), (Value.num 3, recCara)] ["name"]) = true) ∧
    ¬(keyMem (Value.num 1) (added_ids [(Value.num 1, recAlice), (Value.num 2, recBob)]
        [(Value.num 2, recBobby), (Value.num 3, recCara)]) = true ∧
      keyMem (Value.num 1) (removed_ids [(Value.num 1, recAlice), (Value.num 2, recBob)]
        [(Value.num 2, recBobby), (Value.num 3, recCara)]) = true) ∧
    ¬(keyMem (Value.num 1) (added_ids [(Value.num 1, recAlice), (Value.num 2, recBob)]
        [(Value.num 2, recBobby), (Value.num 3, recCara)]) = true ∧
      keyMem (Value.num 1) (modified_ids_of [(Value.num 1, recAlice), (Value.num 2, recBob)]
        [(Value.num 2, recBobby), (Value.num 3, recCara)] ["name"]) = true) ∧
    ¬(keyMem (Value.num 1) (added_ids [(Value.num 1, recAlice), (Value.num 2, recBob)]
        [(Value.num 2, recBobby), (Value.num 3, recCara)]) = true ∧
      keyMem (Value.num 1) (unchanged_ids_of [(Value.num 1, recAlice), (Value.num 2, recBob)]
        [(Value.num 2, recBobby), (Value.num 3, recCara)] ["name"]) = true) ∧
    ¬(keyMem (Value.num 1) (removed_ids [(Value.num 1, recAlice), (Value.num 2, recBob)]
        [(Value.num 2, recBobby), (Value.num 3, recCara)]) = true ∧
      keyMem (Value.num 1) (modified_ids_of [(Value.num 1, recAlice), (Value.num 2, recBob)]
        [(Value.num 2, recBobby), (Value.num 3, recCara)] ["name"]) = true) ∧
    ¬(keyMem (Value.num 1) (removed_ids [(Value.num 1, recAlice), (Value.num 2, recBob)]
        [(Value.num 2, recBobby), (Value.num 3, recCara)]) = true ∧
      keyMem (Value.num 1) (unchanged_ids_of [(Value.num 1, recAlice), (Value.num 2, recBob)]
        [(Value.num 2, recBobby), (Value.num 3, recCara)] ["name"]) = true) ∧
    ¬(keyMem (Value.num 1) (modified_ids_of [(Value.num 1, recAlice), (Value.num 2, recBob)]
        [(Value.num 2, recBobby), (Value.num 3, recCara)] ["name"]) = true ∧
      keyMem (Value.num 1) (unchanged_ids_of [(Value.num 1, recAlice), (Value.num 2, recBob)]
        [(Value.num 2, recBobby), (Value.num 3, recCara)] ["name"]) = true) ∧
    (∀ e ∈ [recCara], keyMem (dictGet e "id")
      (added_ids [(Value.num 1, recAlice), (Value.num 2, recBob)]
        [(Value.num 2, recBobby), (Value.num 3, recCara)]) = true) ∧
    (∀ e ∈ [recAlice], keyMem (dictGet e "id")
      (removed_ids [(Value.num 1, recAlice), (Value.num 2, recBob)]
        [(Value.num 2, recBobby), (Value.num 3, recCara)]) = true) ∧
    (∀ e ∈ [Value.obj [("id", .num 2), ("before", recBob), ("after", recBobby),
        ("changed_fields",
          .obj [("name", .obj [("before", .str "Bob"), ("after", .str "Bobby")])])]],
      keyMem (dictGet (dictGet e "before") "id")
        (modified_ids_of [(Value.num 1, recAlice), (Value.num 2, recBob)]
          [(Value.num 2, recBobby), (Value.num 3, recCara)] ["name"]) = true)) :=
  ⟨⟨by decide, by decide, by decide, by decide⟩,
   C4_partition [recAlice, recBob] [recBobby, recCara] "id" ["name"] _ _ _
     [(.num 1, recAlice), (.num 2, recBob)] [(.num 2, recBobby), (.num 3, recCara)]
     (by decide) (by decide) (by decide) (.num 1) (by decide)⟩

set_option maxRecDepth 10000 in
/-- C5 counterexample: the before snapshots `[recDupA, recDupB]` and
`[recDupB, recDupA]` are permutations of the same records (both carry
identity 1), the after snapshots and all other request fields are
identical, yet `handle_message` produces different serialized output:
last-write-wins indexing makes the surviving before-record depend on
input order, so the output is not independent of iteration order. -/
theorem C5_counterexample :
    ([recDupA, recDupB] : List Value).Perm [recDupB, recDupA] ∧
    handle_parsed (mkRequest "id" ["name"] [recDupA, recDupB] [recDupC]) ≠
      handle_parsed (mkRequest "id" ["name"] [recDupB, recDupA] [recDupC]) :=
  ⟨List.Perm.swap recDupB recDupA [], by decide⟩

/-- C5 (amended): the handler is a pure function of the decoded
request, so identical requests yield byte-identical output; and for
before/after sequences that are permutations of the same records the
output of `compute_diffs` — hence the serialized response of
`handle_message` — is byte-identical, provided each snapshot is
well-keyed: every record is a mapping, identity values are hashable,
pairwise non-equal under Python `==` within the snapshot (which rules
out both duplicates and `1`-versus-`True` pairs), and their string
casts are pairwise distinct.  (With `==`-equal identities, reordering
changes which record wins last-write-wins indexing; with distinct
identities of equal string cast, reordering changes the stable sort's
tie order; both change the bytes, as the counterexample shows.) -/
theorem C5_order_independent_output
    (id_field : String) (fields : List String) (b1 b2 a1 a2 : List Value)
    (hbp : b1.Perm b2) (hap : a1.Perm a2)
    (hwb : WellKeyed b1 id_field) (hwa : WellKeyed a1 id_field) :
    compute_diffs b1 a1 id_field fields = compute_diffs b2 a2 id_field fields ∧
    handle_parsed (mkRequest id_field fields b1 a1) =
      handle_parsed (mkRequest id_field fields b2 a2) := by
  have hc := compute_diffs_perm_invariant id_field fields b1 b2 a1 a2 hbp hap hwb hwa
  refine ⟨hc, ?_⟩
  unfold handle_parsed
  rw [validate_mkRequest_unfold, validate_mkRequest_unfold]
  by_cases h1 : (pyStrip id_field).isEmpty
  · simp only [h1, if_true]
  · rw [Bool.not_eq_true] at h1
    simp only [h1, Bool.false_eq_true, if_false]
    by_cases h2 : (fields.map Value.str).isEmpty
    · simp only [h2, if_true]
    · rw [Bool.not_eq_true] at h2
      simp only [h2, Bool.false_eq_true, if_false]
      cases h3 : extractFields (fields.map Value.str) with
      | none => rfl
      | some fs =>
          have hfs := extractFields_map_str h3
          subst hfs
          show (match compute_diffs b1 a1 id_field fs with
            | .error e => Except.error e
            | .ok (x, y, z) =>
                .ok (serialize_response
                  (make_success_response id_field fs x y z))) =
            (match compute_diffs b2 a2 id_field fs with
            | .error e => Except.error e
            | .ok (x, y, z) =>
                .ok (serialize_response
                  (make_success_response id_field fs x y z)))
          rw [hc]

/-- Witness for the amended C5: permuting a duplicate-free before
snapshot leaves both the diff result and the serialized response
unchanged. -/
theorem C5_order_independent_output_witness :
    (([recAlice, recBob] : List Value).Perm [recBob, recAlice] ∧
      ([recBobby, recCara] : List Value).Perm [recBobby, recCara] ∧
      WellKeyed [recAlice, recBob] "id" ∧
      WellKeyed [recBobby, recCara] "id") ∧
    (compute_diffs [recAlice, recBob] [recBobby, recCara] "id" ["name"] =
        compute_diffs [recBob, recAlice] [recBobby, recCara] "id" ["name"] ∧
      handle_parsed (mkRequest "id" ["name"] [recAlice, recBob] [recBobby, recCara]) =
        handle_parsed (mkRequest "id" ["name"] [recBob, recAlice] [recBobby, recCara])) := by
  have hwb : WellKeyed [recAlice, recBob] "id" := by
    refine ⟨?_, by decide, by decide⟩
    intro it hit
    rcases List.mem_cons.mp hit with rfl | hit2
    · exact ⟨_, rfl⟩
    rcases List.mem_cons.mp hit2 with rfl | hit3
    · exact ⟨_, rfl⟩
    · cases hit3
  have hwa : WellKeyed [recBobby, recCara] "id" := by
    refine ⟨?_, by decide, by decide⟩
    intro it hit
    rcases List.mem_cons.mp hit with rfl | hit2
    · exact ⟨_, rfl⟩
    rcases List.mem_cons.mp hit2 with rfl | hit3
    · exact ⟨_, rfl⟩
    · cases hit3
  exact ⟨⟨List.Perm.swap recBob recAlice [], List.Perm.refl _, hwb, hwa⟩,
    C5_order_independent_output "id" ["name"] _ _ _ _
      (List.Perm.swap recBob recAlice []) (List.Perm.refl _) hwb hwa⟩

/-- C6: `build_index` returns a mapping whose keys are exactly the
identity values of the items that contain the identity field — up to
Python's `==`-unification of dict keys: every key is the exact identity
value of some such item, and every such identity value is `==`-equal to
some key; each key maps to the last item in iteration order bearing a
`==`-equal identity (last-write-wins); an item lacking the field is
skipped without error and changes nothing; and every indexed value —
hence every record that can appear in Added or Removed — contains the
identity field. -/
theorem C6_build_index_characterization (items : List Value) (id_field : String)
    (idx : Dict) (h : build_index items id_field = .ok idx) :
    (∀ k ∈ dictKeys idx, ∃ item ∈ items,
        pyContains item id_field = .ok true ∧ pySubscript item id_field = .ok k) ∧
    (∀ item ∈ items, ∀ k, pyContains item id_field = .ok true →
      pySubscript item id_field = .ok k → keyMem k (dictKeys idx) = true) ∧
    (∀ k, k ∈ dictKeys idx →
      (items.filter (matchesId id_field k)).getLast? = some (dictLookup idx k)) ∧
    (∀ items1 item items2, items = items1 ++ item :: items2 →
      pyContains item id_field = .ok false →
      build_index (items1 ++ items2) id_field = .ok idx) ∧
    (∀ p ∈ idx, pyContains p.2 id_field = .ok true ∧
      ∃ k2, pySubscript p.2 id_field = .ok k2 ∧ pyEq k2 p.1 = true) ∧
    (∀ other : Dict,
      (∀ e ∈ added_items_of other idx, pyContains e id_field = .ok true) ∧
      (∀ e ∈ removed_items_of idx other, pyContains e id_field = .ok true)) := by
  refine ⟨build_index_keys_sub h, build_index_keys_mem h, ?_, ?_, ?_, ?_⟩
  · intro k hk
    obtain ⟨item, hitem, hprop⟩ := build_index_keys_sub h k hk
    have hfn : item ∈ items.filter (matchesId id_field k) := by
      rw [List.mem_filter]
      refine ⟨hitem, ?_⟩
      unfold matchesId
      simp [hprop.1, hprop.2, pyEq_refl]
    have hlk := build_index_lookup h k
    cases hgl : (items.filter (matchesId id_field k)).getLast? with
    | none =>
        exfalso
        cases hfe : items.filter (matchesId id_field k) with
        | nil => rw [hfe] at hfn; cases hfn
        | cons y ys =>
            rw [hfe] at hgl
            exact getLast?_cons_ne_none y ys hgl
    | some a =>
        rw [hlk, hgl]
        rfl
  · intro items1 item items2 hsplit hskip
    rw [← h, hsplit]
    exact (build_index_from_skip hskip items1 items2 []).symm
  · intro p hp
    obtain ⟨⟨k2, hs, hpe⟩, _⟩ := build_index_good h p hp
    exact ⟨pyContains_of_pySubscript hs, k2, hs, hpe⟩
  · intro other
    constructor
    · intro e he
      obtain ⟨k, hk, hek⟩ := List.mem_map.mp he
      have hkk : k ∈ added_ids other idx := (sortByStr_perm _).mem_iff.mp hk
      have hkm : k ∈ dictKeys idx := (List.mem_filter.mp hkk).1
      obtain ⟨p, hp, _, hlk⟩ := dictLookup_mem (keyMem_of_mem hkm)
      obtain ⟨⟨k2, hs, _⟩, _⟩ := build_index_good h p hp
      rw [← hek, hlk]
      exact pyContains_of_pySubscript hs
    · intro e he
      obtain ⟨k, hk, hek⟩ := List.mem_map.mp he
      have hkk : k ∈ removed_ids idx other := (sortByStr_perm _).mem_iff.mp hk
      have hkm : k ∈ dictKeys idx := (List.mem_filter.mp hkk).1
      obtain ⟨p, hp, _, hlk⟩ := dictLookup_mem (keyMem_of_mem hkm)
      obtain ⟨⟨k2, hs, _⟩, _⟩ := build_index_good h p hp
      rw [← hek, hlk]
      exact pyContains_of_pySubscript hs

/-- Witness for C6 on the snapshot
`[recAlice (id 1), recNoId (no id), recDupA (id 1)]`: the index maps
`1` to the later record `recDupA` and skips `recNoId`. -/
theorem C6_build_index_characterization_witness :
    build_index [recAlice, recNoId, recDupA] "id" = .ok [(.num 1, recDupA)] ∧
    ((∀ k ∈ dictKeys [(Value.num 1, recDupA)],
        ∃ item ∈ [recAlice, recNoId, recDupA],
          pyContains item "id" = .ok true ∧ pySubscript item "id" = .ok k) ∧
    (∀ item ∈ [recAlice, recNoId, recDupA], ∀ k,
      pyContains item "id" = .ok true → pySubscript item "id" = .ok k →
      keyMem k (dictKeys [(Value.num 1, recDupA)]) = true) ∧
    (∀ k, k ∈ dictKeys [(Value.num 1, recDupA)] →
      ([recAlice, recNoId, recDupA].filter (matchesId "id" k)).getLast? =
        some (dictLookup [(Value.num 1, recDupA)] k)) ∧
    (∀ items1 item items2,
      [recAlice, recNoId, recDupA] = items1 ++ item :: items2 →
      pyContains item "id" = .ok false →
      build_index (items1 ++ items2) "id" = .ok [(Value.num 1, recDupA)]) ∧
    (∀ p ∈ [(Value.num 1, recDupA)], pyContains p.2 "id" = .ok true ∧
      ∃ k2, pySubscript p.2 "id" = .ok k2 ∧ pyEq k2 p.1 = true) ∧
    (∀ other : Dict,
      (∀ e ∈ added_items_of other [(Value.num 1, recDupA)],
        pyContains e "id" = .ok true) ∧
      (∀ e ∈ removed_items_of [(Value.num 1, recDupA)] other,
        pyContains e "id" = .ok true))) :=
  ⟨by decide,
   C6_build_index_characterization [recAlice, recNoId, recDupA] "id"
     [(.num 1, recDupA)] (by decide)⟩

/-- C7 counterexample: `reqNonMapping` has `before = [1]` — an element
that is not mapping-shaped — yet `validate_request` does not fail with
the snapshot-shape error (or any error): element shapes are never
checked, contradicting the claimed "exactly when". -/
theorem C7_counterexample :
    (∃ v, v ∈ ([Value.num 1] : List Value) ∧ ∀ fs : Record, v ≠ .obj fs) ∧
    validate_request reqNonMapping = .ok ⟨"id", ["name"], [.num 1], []⟩ :=
  ⟨⟨.num 1, by decide, fun fs h => by cases h⟩, by decide⟩

/-- C7 (amended): with the earlier checks passing (request tag,
identity field, comparison fields), validation fails with the
snapshot-shape error exactly when `before` or `after` is missing or not
a list; the shapes of the elements are not checked, so any request
whose `before` and `after` are lists — mapping-shaped elements or not —
passes validation. -/
theorem C7_snapshot_shape_validation (request : Record)
    (hrt : recGetD request "request_type" .null = .str "change_diff")
    (hid : ∃ s, recGetD request "id_field" (.str "id") = .str s ∧
      (pyStrip s).isEmpty = false)
    (hfl : ∃ l fs, recGetD request "fields_to_compare" .null = .arr l ∧
      l ≠ [] ∧ extractFields l = some fs) :
    (validate_request request =
        .error (make_error_response
          "\x27before\x27 and \x27after\x27 must both be lists.") ↔
      (∀ bl, recGetD request "before" .null ≠ .arr bl) ∨
      (∀ al, recGetD request "after" .null ≠ .arr al)) ∧
    (∀ bl al, recGetD request "before" .null = .arr bl →
      recGetD request "after" .null = .arr al →
      ∃ s fs, validate_request request = .ok ⟨s, fs, bl, al⟩) := by
  obtain ⟨s, hs, hse⟩ := hid
  obtain ⟨l, fs, hl, hlne, hlf⟩ := hfl
  have hle : l.isEmpty = false := by
    cases l with
    | nil => exact absurd rfl hlne
    | cons a as => rfl
  have hv : validate_request request =
      match recGetD request "before" .null, recGetD request "after" .null with
      | .arr before_list, .arr after_list => .ok ⟨s, fs, before_list, after_list⟩
      | _, _ =>
          .error (make_error_response
            "\x27before\x27 and \x27after\x27 must both be lists.") := by
    unfold validate_request
    simp only [hrt, hs, hl, hlf, hse, hle, beq_self_eq_true, Bool.not_true,
      Bool.false_eq_true, if_false]
  constructor
  · rw [hv]
    constructor
    · intro herr
      by_cases hb : ∃ bl, recGetD request "before" .null = .arr bl
      · obtain ⟨bl, hbv⟩ := hb
        right
        intro al hav
        rw [hbv, hav] at herr
        cases herr
      · left
        intro bl hbv
        exact hb ⟨bl, hbv⟩
    · rintro (hb | ha)
      · cases hbv : recGetD request "before" .null
        case arr bl => exact absurd hbv (hb bl)
        all_goals rfl
      · cases hbv : recGetD request "before" .null
        case arr bl =>
          cases hav : recGetD request "after" .null
          case arr al => exact absurd hav (ha al)
          all_goals rfl
        all_goals rfl
  · intro bl al hbv hav
    rw [hv, hbv, hav]
    exact ⟨s, fs, rfl⟩

/-- Witness for the amended C7 at the request `reqNonMapping`. -/
theorem C7_snapshot_shape_validation_witness :
    (recGetD reqNonMapping "request_type" .null = .str "change_diff" ∧
      (∃ s, recGetD reqNonMapping "id_field" (.str "id") = .str s ∧
        (pyStrip s).isEmpty = false) ∧
      (∃ l fs, recGetD reqNonMapping "fields_to_compare" .null = .arr l ∧
        l ≠ [] ∧ extractFields l = some fs)) ∧
    ((validate_request reqNonMapping =
        .error (make_error_response
          "\x27before\x27 and \x27after\x27 must both be lists.") ↔
      (∀ bl, recGetD reqNonMapping "before" .null ≠ .arr bl) ∨
      (∀ al, recGetD reqNonMapping "after" .null ≠ .arr al)) ∧
    (∀ bl al, recGetD reqNonMapping "before" .null = .arr bl →
      recGetD reqNonMapping "after" .null = .arr al →
      ∃ s fs, validate_request reqNonMapping = .ok ⟨s, fs, bl, al⟩)) :=
  ⟨⟨by decide, ⟨"id", by decide, by decide⟩,
    ⟨[.str "name"], ["name"], by decide, by decide, by decide⟩⟩,
   C7_snapshot_shape_validation reqNonMapping (by decide)
     ⟨"id", by decide, by decide⟩
     ⟨[.str "name"], ["name"], by decide, by decide, by decide⟩⟩

/-- C8 counterexample: `fields_to_compare = [" "]` contains only a
non-empty string (its length is 1), yet validation fails with the
comparison-fields error: the loop also rejects strings that `strip()`
to empty, contradicting the claimed "exactly when". -/
theorem C8_counterexample :
    (" " : String).length ≠ 0 ∧
    validate_request reqBlankField =
      .error (make_error_response
        "All entries in \x27fields_to_compare\x27 must be non-empty strings.") :=
  ⟨by decide, by decide⟩

/-- C8 (amended): with the request tag and identity field checks
passing, validation fails with an `InvalidComparisonFields` error (one
of the two comparison-fields messages) exactly when `fields_to_compare`
is missing, not a list, empty, or has an entry that is not a string or
strips to the empty string; on any validation error the handler
serializes that error response — the Indexer and Reconciler never run,
so `fields_to_compare: []` yields an error response and no diff. -/
theorem C8_comparison_fields_validation (request : Record)
    (hrt : recGetD request "request_type" .null = .str "change_diff")
    (hid : ∃ s, recGetD request "id_field" (.str "id") = .str s ∧
      (pyStrip s).isEmpty = false) :
    ((validate_request request =
        .error (make_error_response
          "\x27fields_to_compare\x27 must be a non-empty list of field names.") ∨
      validate_request request =
        .error (make_error_response
          "All entries in \x27fields_to_compare\x27 must be non-empty strings.")) ↔
      ((∀ l, recGetD request "fields_to_compare" .null ≠ .arr l) ∨
        recGetD request "fields_to_compare" .null = .arr [] ∨
        (∃ l, recGetD request "fields_to_compare" .null = .arr l ∧
          l.any badField = true))) ∧
    (∀ e, validate_request request = .error e →
      handle_parsed request = .ok (serialize_response e)) := by
  obtain ⟨s, hs, hse⟩ := hid
  constructor
  · have hv : validate_request request =
        match recGetD request "fields_to_compare" .null with
        | .arr l =>
            if l.isEmpty then
              .error (make_error_response
                "\x27fields_to_compare\x27 must be a non-empty list of field names.")
            else
              match extractFields l with
              | none =>
                  .error (make_error_response
                    "All entries in \x27fields_to_compare\x27 must be non-empty strings.")
              | some fs =>
                  match recGetD request "before" .null, recGetD request "after" .null with
                  | .arr before_list, .arr after_list =>
                      .ok ⟨s, fs, before_list, after_list⟩
                  | _, _ =>
                      .error (make_error_response
                        "\x27before\x27 and \x27after\x27 must both be lists.")
        | _ =>
            .error (make_error_response
              "\x27fields_to_compare\x27 must be a non-empty list of field names.") := by
      unfold validate_request
      simp only [hrt, hs, hse, beq_self_eq_true, Bool.not_true,
        Bool.false_eq_true, if_false]
    rw [hv]
    cases hfv : recGetD request "fields_to_compare" .null
    case arr l =>
      cases l with
      | nil =>
          exact iff_of_true (Or.inl rfl) (Or.inr (Or.inl rfl))
      | cons x xs =>
          cases hxf : extractFields (x :: xs) with
          | none =>
              refine iff_of_true ?_ ?_
              · simp only [List.isEmpty_cons, Bool.false_eq_true, if_false, hxf]
                exact Or.inr trivial
              · exact Or.inr (Or.inr ⟨x :: xs, rfl,
                  (extractFields_none_iff (x :: xs)).mp hxf⟩)
          | some fs =>
              refine iff_of_false ?_ ?_
              · simp only [List.isEmpty_cons, Bool.false_eq_true, if_false, hxf]
                rintro (h | h)
                · exact validate_tail_ne s fs _ _ _ (by decide) h
                · exact validate_tail_ne s fs _ _ _ (by decide) h
              · rintro (h1 | h2 | ⟨l', hl', hany⟩)
                · exact h1 (x :: xs) rfl
                · cases h2
                · cases hl'
                  rw [extractFields_some_no_bad hxf] at hany
                  cases hany
    all_goals
      exact iff_of_true (Or.inl rfl) (Or.inl (fun l h => by cases h))
  · intro e he
    unfold handle_parsed
    rw [he]

/-- Witness for the amended C8 at the request `reqEmptyFields`
(`fields_to_compare: []`): the error response is produced and the
handler short-circuits with it. -/
theorem C8_comparison_fields_validation_witness :
    (recGetD reqEmptyFields "request_type" .null = .str "change_diff" ∧
      (∃ s, recGetD reqEmptyFields "id_field" (.str "id") = .str s ∧
        (pyStrip s).isEmpty = false)) ∧
    (((validate_request reqEmptyFields =
        .error (make_error_response
          "\x27fields_to_compare\x27 must be a non-empty list of field names.") ∨
      validate_request reqEmptyFields =
        .error (make_error_response
          "All entries in \x27fields_to_compare\x27 must be non-empty strings.")) ↔
      ((∀ l, recGetD reqEmptyFields "fields_to_compare" .null ≠ .arr l) ∨
        recGetD reqEmptyFields "fields_to_compare" .null = .arr [] ∨
        (∃ l, recGetD reqEmptyFields "fields_to_compare" .null = .arr l ∧
          l.any badField = true))) ∧
    (∀ e, validate_request reqEmptyFields = .error e →
      handle_parsed reqEmptyFields = .ok (serialize_response e))) :=
  ⟨⟨by decide, ⟨"id", by decide, by decide⟩⟩,
   C8_comparison_fields_validation reqEmptyFields (by decide)
     ⟨"id", by decide, by decide⟩⟩

/-- Witness for C10 at `id_field = "before"` on a concrete one-record
snapshot pair whose tracked field changes. -/
theorem C10_reserved_id_field_collision_witness :
    ((("before" : String) = "before" ∨ ("before" : String) = "after" ∨
        ("before" : String) = "changed_fields") ∧
      compute_diffs [recColX] [recColY] "before" ["name"] = .ok ([], [], [colEntry])) ∧
    ∀ e ∈ ([colEntry] : List Value),
      ∃ fs : Record, e = .obj fs ∧
        (fs.map Prod.fst).Perm ["before", "after", "changed_fields"] ∧
        ∃ comp : Record, recGetD fs "before" .null = .obj comp :=
  ⟨⟨Or.inl rfl, by decide⟩,
    C10_reserved_id_field_collision [recColX] [recColY] "before" ["name"] [] [] [colEntry]
      (Or.inl rfl) (by decide)⟩

end DiffTracker
